import Mathlib

/-!
# Verification of the AI-Powered Career Guidance Platform backend

This file embeds, in Lean 4, the JSON-recovery utility
(`src/backend/utils/jsonParser.js`) and the AI dashboard service
(`src/backend/services/aiDashboard.js`) of the repository, and proves or
refutes the specification claims about them.

Modelling conventions:
* JavaScript values flowing through these modules are JSON data; they are
  modelled by the inductive type `Json` below.  JavaScript strings are
  modelled as `List Char`; object fields keep insertion order, as JavaScript
  objects do for string keys.
* JSON numbers are modelled as integers (`Int`).  Every number occurring in
  the code and in the verified inputs is integral; the number model and the
  `JSON.parse` model below therefore restrict the numeric grammar to
  integers.
* `JSON.parse` / `JSON.stringify` are JavaScript builtins; they are modelled
  by `jsonParse` / `stringify` below.  The third-party libraries `JSON5` and
  `jsonrepair` used by `parseJSON` are external packages (not repository
  code); they are abstracted as oracle parameters.
* Exceptions are modelled with `Except String`; `console` logging has no
  semantic effect and is dropped.
-/

set_option maxHeartbeats 1000000
set_option maxRecDepth 10000

namespace Career

/-- The JSON data model: the values produced by `JSON.parse` and manipulated
by the dashboard service.  Object fields are kept in insertion order, and
strings are lists of characters. -/
inductive Json where
  | null : Json
  | bool (b : Bool) : Json
  | num (n : Int) : Json
  | str (s : List Char) : Json
  | arr (elems : List Json) : Json
  | obj (fields : List (List Char × Json)) : Json

/-- Shorthand for building a `Json` string from a string literal. -/
def jstr (s : String) : Json := .str s.data

mutual

/-- Structural (boolean) equality on `Json`, used to decide equality. -/
def beqJson : Json → Json → Bool
  | .null, .null => true
  | .bool a, .bool b => a == b
  | .num a, .num b => a == b
  | .str a, .str b => a == b
  | .arr a, .arr b => beqJsonList a b
  | .obj a, .obj b => beqJsonFields a b
  | _, _ => false

/-- Equality on lists of `Json` values. -/
def beqJsonList : List Json → List Json → Bool
  | [], [] => true
  | x :: xs, y :: ys => beqJson x y && beqJsonList xs ys
  | _, _ => false

/-- Equality on object field lists. -/
def beqJsonFields : List (List Char × Json) → List (List Char × Json) → Bool
  | [], [] => true
  | (k₁, v₁) :: xs, (k₂, v₂) :: ys => k₁ == k₂ && beqJson v₁ v₂ && beqJsonFields xs ys
  | _, _ => false

end

mutual

theorem beqJson_iff : ∀ a b : Json, beqJson a b = true ↔ a = b
  | .null, b => by cases b <;> simp [beqJson]
  | .bool x, b => by cases b <;> simp [beqJson]
  | .num x, b => by cases b <;> simp [beqJson]
  | .str x, b => by cases b <;> simp [beqJson]
  | .arr xs, b => by
      cases b <;> simp [beqJson]
      exact beqJsonList_iff xs _
  | .obj fs, b => by
      cases b <;> simp [beqJson]
      exact beqJsonFields_iff fs _

theorem beqJsonList_iff : ∀ a b : List Json, beqJsonList a b = true ↔ a = b
  | [], b => by cases b <;> simp [beqJsonList]
  | x :: xs, b => by
      cases b with
      | nil => simp [beqJsonList]
      | cons y ys =>
          simp only [beqJsonList, Bool.and_eq_true, List.cons.injEq]
          rw [beqJson_iff, beqJsonList_iff]

theorem beqJsonFields_iff :
    ∀ a b : List (List Char × Json), beqJsonFields a b = true ↔ a = b
  | [], b => by cases b <;> simp [beqJsonFields]
  | (k, v) :: xs, b => by
      cases b with
      | nil => simp [beqJsonFields]
      | cons y ys =>
          obtain ⟨k', v'⟩ := y
          simp only [beqJsonFields, Bool.and_eq_true, List.cons.injEq, Prod.mk.injEq]
          rw [beqJson_iff, beqJsonFields_iff, beq_iff_eq]

end

instance : DecidableEq Json := fun a b =>
  decidable_of_iff (beqJson a b = true) (beqJson_iff a b)

/-- JavaScript truthiness of a value: `null`, `false`, `0` and `""` are
falsy; every other JSON value (objects and arrays included) is truthy. -/
def Json.truthy : Json → Bool
  | .null => false
  | .bool b => b
  | .num n => n != 0
  | .str s => !s.isEmpty
  | .arr _ => true
  | .obj _ => true

/-- Truthiness of a possibly-`undefined` value (`none` models JavaScript
`undefined`, which is falsy). -/
def truthyO : Option Json → Bool
  | none => false
  | some v => v.truthy

/-- `typeof x === 'object'` for a JSON value: true of `null`, arrays and
objects (the JavaScript quirk that `typeof null === 'object'`). -/
def Json.typeofObject : Json → Bool
  | .null => true
  | .arr _ => true
  | .obj _ => true
  | _ => false

/-- `typeof x === 'number'`. -/
def Json.typeofNumber : Json → Bool
  | .num _ => true
  | _ => false

/-- `typeof x === 'string'`. -/
def Json.typeofString : Json → Bool
  | .str _ => true
  | _ => false

/-- `typeof x === 'boolean'`. -/
def Json.typeofBoolean : Json → Bool
  | .bool _ => true
  | _ => false

/-- `Array.isArray x`. -/
def Json.isArr : Json → Bool
  | .arr _ => true
  | _ => false

/-- Field lookup in an ordered field list (first occurrence). -/
def getFields (k : List Char) : List (List Char × Json) → Option Json
  | [] => none
  | p :: ps => if p.1 = k then some p.2 else getFields k ps

/-- Field update in an ordered field list: replaces the first occurrence of
the key in place, or appends the binding if the key is absent — the update
behaviour of a JavaScript object, which keeps the original insertion
position of an existing key. -/
def setFields (k : List Char) (v : Json) : List (List Char × Json) → List (List Char × Json)
  | [] => [(k, v)]
  | p :: ps => if p.1 = k then (k, v) :: ps else p :: setFields k v ps

/-- Property read `x[k]`: `none` models JavaScript `undefined` (missing
field, or property access on a non-object). -/
def getField : Json → String → Option Json
  | .obj fs, k => getFields k.data fs
  | _, _ => none

/-- Property write `x[k] = v` on an object.  JavaScript would also accept a
named-property write on an array and throw a `TypeError` on a primitive;
neither case is reachable in the verified code paths, and both are
modelled as the identity. -/
def setField : Json → String → Json → Json
  | .obj fs, k, v => .obj (setFields k.data v fs)
  | j, _, _ => j

/-- `Object.keys(x).length`: field count of an object, element count of an
array, character count of a string, and `0` for the remaining primitives
(`Object.keys(null)` would throw in JavaScript; no caller passes `null`). -/
def numKeys : Json → Nat
  | .obj fs => fs.length
  | .arr xs => xs.length
  | .str s => s.length
  | _ => 0

theorem getFields_setFields_same (k : List Char) (v : Json) :
    ∀ fs, getFields k (setFields k v fs) = some v := by
  intro fs
  induction fs with
  | nil => simp [getFields, setFields]
  | cons p ps ih =>
      by_cases h : p.1 = k
      · simp [getFields, setFields, h]
      · simp [getFields, setFields, h, ih]

theorem getFields_setFields_ne (k k' : List Char) (v : Json) (hne : k ≠ k') :
    ∀ fs, getFields k' (setFields k v fs) = getFields k' fs := by
  intro fs
  induction fs with
  | nil => simp [getFields, setFields, hne]
  | cons p ps ih =>
      by_cases h : p.1 = k
      · simp [getFields, setFields, h, hne, Ne.symm hne]
      · simp only [setFields, h, if_false, getFields]
        by_cases h' : p.1 = k'
        · simp [h']
        · simp [h', ih]

theorem getField_setField_same (fs : List (List Char × Json)) (k : String) (v : Json) :
    getField (setField (.obj fs) k v) k = some v := by
  simp [getField, setField, getFields_setFields_same]

theorem getField_setField_ne (fs : List (List Char × Json)) (k k' : String) (v : Json)
    (hne : k ≠ k') : getField (setField (.obj fs) k v) k' = getField (.obj fs) k' := by
  have : k.data ≠ k'.data := by
    intro h
    apply hne
    cases k
    cases k'
    exact congrArg String.mk h
  simp [getField, setField, getFields_setFields_ne _ _ _ this]

/-- `setField` keeps objects objects. -/
theorem setField_obj (fs : List (List Char × Json)) (k : String) (v : Json) :
    ∃ gs, setField (.obj fs) k v = .obj gs := ⟨_, rfl⟩

/-! ## `JSON.stringify`: the serializer

`JSON.stringify` with no replacer and no indentation: compact output, object
fields in insertion order, strings escaped. -/

/-- The decimal digit character for `m % 10`. -/
def digitChar (m : Nat) : Char :=
  match m with
  | 0 => '0' | 1 => '1' | 2 => '2' | 3 => '3' | 4 => '4'
  | 5 => '5' | 6 => '6' | 7 => '7' | 8 => '8' | _ => '9'

/-- Decimal digits of `n`, most significant first, accumulated onto `acc`;
empty for `n = 0`.  The first argument is fuel making the recursion
structural; any fuel of at least `n` gives the digits of `n`. -/
def natDigitsAux : Nat → Nat → List Char → List Char
  | 0, _, acc => acc
  | fuel + 1, n, acc =>
      if n = 0 then acc
      else natDigitsAux fuel (n / 10) (digitChar (n % 10) :: acc)

/-- Decimal digits of `n`, most significant first (empty for `0`). -/
def digitsOf (n : Nat) : List Char := natDigitsAux n n []

/-- Decimal rendering of a natural number. -/
def serNat (n : Nat) : List Char := if n = 0 then ['0'] else digitsOf n

/-- Decimal rendering of an integer, as `JSON.stringify` renders an
integral JavaScript number. -/
def serInt (i : Int) : List Char :=
  if i < 0 then '-' :: serNat (-i).toNat else serNat i.toNat

/-- The hexadecimal digit character for `m % 16` (lower case, as V8 prints
`\u00XX` escapes). -/
def hexChar (m : Nat) : Char :=
  match m with
  | 0 => '0' | 1 => '1' | 2 => '2' | 3 => '3' | 4 => '4'
  | 5 => '5' | 6 => '6' | 7 => '7' | 8 => '8' | 9 => '9'
  | 10 => 'a' | 11 => 'b' | 12 => 'c' | 13 => 'd' | 14 => 'e' | _ => 'f'

/-- String escaping of one character, as `JSON.stringify` performs it:
quote, backslash and the named control characters get two-character
escapes, the remaining control characters get `\u00XX`, and every other
character is emitted as itself. -/
def escapeChar (c : Char) : List Char :=
  if c = '"' then ['\\', '"']
  else if c = '\\' then ['\\', '\\']
  else if c = '\n' then ['\\', 'n']
  else if c = '\t' then ['\\', 't']
  else if c = '\r' then ['\\', 'r']
  else if c.toNat = 8 then ['\\', 'b']
  else if c.toNat = 12 then ['\\', 'f']
  else if c.toNat < 0x20 then
    ['\\', 'u', '0', '0', hexChar (c.toNat / 16), hexChar (c.toNat % 16)]
  else [c]

/-- Serialization of a string, quotes included. -/
def serString (s : List Char) : List Char :=
  '"' :: (s.map escapeChar).flatten ++ ['"']

mutual

/-- `JSON.stringify` of a value (compact form, no replacer). -/
def ser : Json → List Char
  | .null => ("null").data
  | .bool true => ("true").data
  | .bool false => ("false").data
  | .num n => serInt n
  | .str s => serString s
  | .arr xs => '[' :: serElems xs ++ [']']
  | .obj fs => '{' :: serFields fs ++ ['}']

/-- Serialization of array elements, comma separated. -/
def serElems : List Json → List Char
  | [] => []
  | [x] => ser x
  | x :: xs => ser x ++ ',' :: serElems xs

/-- Serialization of object fields, comma separated. -/
def serFields : List (List Char × Json) → List Char
  | [] => []
  | [(k, v)] => serString k ++ ':' :: ser v
  | (k, v) :: fs => serString k ++ ':' :: ser v ++ ',' :: serFields fs

end

/-- `JSON.stringify`, on character lists. -/
def stringify (j : Json) : List Char := ser j

theorem natDigitsAux_eq_append :
    ∀ n fuel acc, n ≤ fuel → natDigitsAux fuel n acc = digitsOf n ++ acc := by
  intro n
  induction n using Nat.strong_induction_on with
  | _ n ih =>
      intro fuel acc hf
      by_cases h : n = 0
      · subst h
        cases fuel <;> simp [natDigitsAux, digitsOf]
      · obtain ⟨g, rfl⟩ : ∃ g, fuel = g + 1 := ⟨fuel - 1, by omega⟩
        obtain ⟨m, rfl⟩ : ∃ m, n = m + 1 := ⟨n - 1, by omega⟩
        have hlt : (m + 1) / 10 < m + 1 := Nat.div_lt_self (by omega) (by norm_num)
        rw [natDigitsAux]
        simp only [h, if_false]
        rw [ih _ hlt _ _ (by omega)]
        have : digitsOf (m + 1) = digitsOf ((m + 1) / 10) ++ [digitChar ((m + 1) % 10)] := by
          rw [digitsOf, natDigitsAux]
          simp only [h, if_false]
          rw [ih _ hlt _ _ (by omega)]
        rw [this]
        simp

theorem digitsOf_succ (n : Nat) (h : n ≠ 0) :
    digitsOf n = digitsOf (n / 10) ++ [digitChar (n % 10)] := by
  obtain ⟨m, rfl⟩ : ∃ m, n = m + 1 := ⟨n - 1, by omega⟩
  rw [digitsOf, natDigitsAux]
  simp only [h, if_false]
  exact natDigitsAux_eq_append _ _ _ (by
    have := Nat.div_le_self (m + 1) 10
    omega)

theorem digitChar_isDigit (m : Nat) (h : m < 10) : (digitChar m).isDigit = true := by
  interval_cases m <;> decide

theorem digitsOf_all_digit (n : Nat) : ∀ c ∈ digitsOf n, c.isDigit = true := by
  induction n using Nat.strong_induction_on with
  | _ n ih =>
      intro c hc
      by_cases h : n = 0
      · simp [digitsOf, natDigitsAux, h] at hc
      · rw [digitsOf_succ n h] at hc
        rcases List.mem_append.mp hc with h1 | h1
        · exact ih _ (Nat.div_lt_self (Nat.pos_of_ne_zero h) (by norm_num)) c h1
        · simp at h1
          subst h1
          exact digitChar_isDigit _ (Nat.mod_lt _ (by norm_num))

theorem digitsOf_head_ne_zero (n : Nat) (h : n ≠ 0) :
    ∃ c t, digitsOf n = c :: t ∧ c ≠ '0' := by
  induction n using Nat.strong_induction_on with
  | _ n ih =>
      by_cases hsmall : n / 10 = 0
      · have hn10 : n < 10 := by omega
        refine ⟨digitChar (n % 10), [], ?_, ?_⟩
        · rw [digitsOf_succ n h, hsmall]
          simp [digitsOf, natDigitsAux]
        · have : n % 10 = n := Nat.mod_eq_of_lt hn10
          rw [this]
          interval_cases n <;> simp_all <;> decide
      · obtain ⟨c, t, hct, hc0⟩ := ih (n / 10)
          (Nat.div_lt_self (Nat.pos_of_ne_zero h) (by norm_num)) hsmall
        exact ⟨c, t ++ [digitChar (n % 10)], by rw [digitsOf_succ n h, hct]; simp, hc0⟩

/-- Numeric value of one digit character. -/
def digitVal (c : Char) : Nat := c.toNat - 48

/-- Numeric value of a digit string. -/
def valDigits (ds : List Char) : Nat := ds.foldl (fun a c => a * 10 + digitVal c) 0

theorem digitVal_digitChar (m : Nat) (h : m < 10) : digitVal (digitChar m) = m := by
  interval_cases m <;> decide

theorem foldl_digits_append (ds : List Char) (c : Char) (a : Nat) :
    (ds ++ [c]).foldl (fun a c => a * 10 + digitVal c) a
      = (ds.foldl (fun a c => a * 10 + digitVal c) a) * 10 + digitVal c := by
  rw [List.foldl_append]
  rfl

theorem valDigits_digitsOf (n : Nat) : valDigits (digitsOf n) = n := by
  induction n using Nat.strong_induction_on with
  | _ n ih =>
      by_cases h : n = 0
      · simp [h, digitsOf, natDigitsAux, valDigits]
      · rw [digitsOf_succ n h]
        unfold valDigits
        rw [foldl_digits_append]
        have h10 : n % 10 < 10 := Nat.mod_lt _ (by norm_num)
        rw [digitVal_digitChar _ h10]
        have := ih (n / 10) (Nat.div_lt_self (Nat.pos_of_ne_zero h) (by norm_num))
        unfold valDigits at this
        rw [this]
        omega

/-! ## `JSON.parse`: the parser

A recursive-descent model of the `JSON.parse` builtin.  JSON numbers are
restricted to the integral grammar (optional sign, digits, no leading zero);
every number in the code and in the verified inputs is integral, and a
fraction or exponent makes the model reject where JavaScript would build a
non-integral double.  The recursion is bounded by a fuel parameter that the
top-level entry point makes large enough to be unreachable. -/

/-- JSON whitespace (the four characters `JSON.parse` skips). -/
def isWsChar (c : Char) : Bool := c = ' ' || c = '\t' || c = '\n' || c = '\r'

/-- Skip leading JSON whitespace. -/
def skipWs : List Char → List Char
  | [] => []
  | c :: cs => if isWsChar c then skipWs cs else c :: cs

/-- Longest prefix satisfying `p`, with the remainder. -/
def munchWhile (p : Char → Bool) : List Char → List Char × List Char
  | [] => ([], [])
  | c :: cs =>
      if p c then
        let (t, r) := munchWhile p cs
        (c :: t, r)
      else ([], c :: cs)

/-- Value of a hexadecimal digit character, if it is one. -/
def hexVal (c : Char) : Option Nat :=
  if '0' ≤ c ∧ c ≤ '9' then some (c.toNat - 48)
  else if 'a' ≤ c ∧ c ≤ 'f' then some (c.toNat - 87)
  else if 'A' ≤ c ∧ c ≤ 'F' then some (c.toNat - 55)
  else none

/-- Decode one escape sequence after a backslash: the escaped character and
the rest of the input, or `none` for an invalid escape.  A `\uXXXX` escape
whose code is not a unicode scalar value (an unpaired surrogate half) falls
outside the `Char` model and is decoded as `Char.ofNat`'s default. -/
def decodeEscape : List Char → Option (Char × List Char)
  | 'u' :: a :: b :: c :: d :: r =>
      match hexVal a, hexVal b, hexVal c, hexVal d with
      | some va, some vb, some vc, some vd =>
          some (Char.ofNat (va * 4096 + vb * 256 + vc * 16 + vd), r)
      | _, _, _, _ => none
  | '"' :: r => some ('"', r)
  | '\\' :: r => some ('\\', r)
  | '/' :: r => some ('/', r)
  | 'n' :: r => some ('\n', r)
  | 't' :: r => some ('\t', r)
  | 'r' :: r => some ('\r', r)
  | 'b' :: r => some (Char.ofNat 8, r)
  | 'f' :: r => some (Char.ofNat 12, r)
  | _ => none

/-- Parse the remainder of a JSON string after the opening quote: returns
the decoded characters and the input after the closing quote.  Escapes are
decoded as `JSON.parse` decodes them.  The fuel argument makes the
recursion structural; callers pass at least the input length plus one, so
the fuel case is unreachable. -/
def parseStringRest : Nat → List Char → Except String (List Char × List Char)
  | 0, _ => .error "model recursion limit"
  | _, [] => .error "Unterminated string in JSON"
  | fuel + 1, c :: r =>
      if c = '"' then .ok ([], r)
      else if c = '\\' then
        match decodeEscape r with
        | some p => (parseStringRest fuel p.2).map (fun q => (p.1 :: q.1, q.2))
        | none => .error "Bad escaped character in JSON"
      else if c.toNat < 0x20 then .error "Bad control character in string literal in JSON"
      else (parseStringRest fuel r).map (fun q => (c :: q.1, q.2))

/-- Parse an unsigned integer token: one or more digits, no leading zero,
and no fraction or exponent (see the section comment). -/
def parseNatTok (cs : List Char) : Except String (Nat × List Char) :=
  let (ds, r) := munchWhile Char.isDigit cs
  if ds.isEmpty then .error "Unexpected token in JSON: digit expected"
  else if ds.head? = some '0' ∧ 1 < ds.length then
    .error "Unexpected number in JSON: leading zero"
  else if r.head? = some '.' ∨ r.head? = some 'e' ∨ r.head? = some 'E' then
    .error "non-integral number: outside the integer model"
  else .ok (valDigits ds, r)

/-- Parse a JSON number token (integral grammar). -/
def parseIntTok : List Char → Except String (Int × List Char)
  | [] => .error "Unexpected end of JSON input"
  | c :: rest =>
      if c = '-' then (parseNatTok rest).map (fun p => (-(p.1 : Int), p.2))
      else (parseNatTok (c :: rest)).map (fun p => ((p.1 : Int), p.2))

/-- Fold parsed object members into a field list, later occurrence of a
key overwriting the earlier one in place — `JSON.parse`'s behaviour for
duplicate keys. -/
def buildObj (ps : List (List Char × Json)) : List (List Char × Json) :=
  ps.foldl (fun acc p => setFields p.1 p.2 acc) []

mutual

/-- Parse one JSON value at the head of the input (no leading whitespace);
returns the value and the rest of the input. -/
def parseValue : Nat → List Char → Except String (Json × List Char)
  | 0, _ => .error "model recursion limit"
  | fuel + 1, cs =>
      match cs with
      | [] => .error "Unexpected end of JSON input"
      | c :: cs' =>
          if c = '-' || c.isDigit then
            (parseIntTok (c :: cs')).map (fun p => (.num p.1, p.2))
          else if c = '"' then
            (parseStringRest (cs'.length + 1) cs').map (fun p => (.str p.1, p.2))
          else if c = '[' then
            let r1 := skipWs cs'
            if r1.head? = some ']' then .ok (.arr [], r1.tail)
            else (parseElems fuel r1).map (fun p => (.arr p.1, p.2))
          else if c = '{' then
            let r1 := skipWs cs'
            if r1.head? = some '}' then .ok (.obj [], r1.tail)
            else (parseFieldList fuel r1).map (fun p => (.obj (buildObj p.1), p.2))
          else
            let w := c :: cs'
            if w.take 4 = ['n', 'u', 'l', 'l'] then .ok (.null, w.drop 4)
            else if w.take 4 = ['t', 'r', 'u', 'e'] then .ok (.bool true, w.drop 4)
            else if w.take 5 = ['f', 'a', 'l', 's', 'e'] then .ok (.bool false, w.drop 5)
            else .error "Unexpected token in JSON"

/-- Parse the elements of a non-empty array, consuming the closing `]`. -/
def parseElems : Nat → List Char → Except String (List Json × List Char)
  | 0, _ => .error "model recursion limit"
  | fuel + 1, cs =>
      match parseValue fuel cs with
      | .error e => .error e
      | .ok (v, r) =>
          let r1 := skipWs r
          if r1.head? = some ',' then
            (parseElems fuel (skipWs r1.tail)).map (fun p => (v :: p.1, p.2))
          else if r1.head? = some ']' then .ok ([v], r1.tail)
          else .error "Expected ',' or ']' after array element in JSON"

/-- Parse the members of a non-empty object, consuming the closing `}`. -/
def parseFieldList : Nat → List Char → Except String (List (List Char × Json) × List Char)
  | 0, _ => .error "model recursion limit"
  | fuel + 1, cs =>
      if cs.head? = some '"' then
        match parseStringRest (cs.tail.length + 1) cs.tail with
        | .error e => .error e
        | .ok (k, r1) =>
            let r2 := skipWs r1
            if r2.head? = some ':' then
              match parseValue fuel (skipWs r2.tail) with
              | .error e => .error e
              | .ok (v, r3) =>
                  let r4 := skipWs r3
                  if r4.head? = some ',' then
                    (parseFieldList fuel (skipWs r4.tail)).map
                      (fun p => ((k, v) :: p.1, p.2))
                  else if r4.head? = some '}' then .ok ([(k, v)], r4.tail)
                  else .error "Expected ',' or '\x7d' after property value in JSON"
            else .error "Expected ':' after property name in JSON"
      else .error "Expected property name or '\x7d' in JSON"

end

/-- The `JSON.parse` builtin: skip surrounding whitespace, parse one value,
and reject trailing input. -/
def jsonParse (text : List Char) : Except String Json :=
  let cs := skipWs text
  match parseValue (2 * cs.length + 2) cs with
  | .error e => .error e
  | .ok (v, r) =>
      match skipWs r with
      | [] => .ok v
      | _ => .error "Unexpected non-whitespace character after JSON data"

instance {α β : Type} [DecidableEq α] [DecidableEq β] : DecidableEq (Except α β) :=
  fun a b =>
    match a, b with
    | .ok x, .ok y => if h : x = y then isTrue (by rw [h]) else isFalse (by simp [h])
    | .error x, .error y => if h : x = y then isTrue (by rw [h]) else isFalse (by simp [h])
    | .ok _, .error _ => isFalse (by simp)
    | .error _, .ok _ => isFalse (by simp)

/-! ## Round trip: `JSON.parse ∘ JSON.stringify`

`jsonParse (stringify v) = .ok v` for every *tame* value: one whose strings
need no escaping and whose objects have no duplicate keys — exactly the
values arising in the verified scenarios. -/

/-- A character that `JSON.stringify` emits unescaped. -/
def tameChar (c : Char) : Bool := c ≠ '"' && c ≠ '\\' && decide (0x20 ≤ c.toNat)

/-- A string of unescaped characters. -/
def tameStr (s : List Char) : Bool := s.all tameChar

/-- Pairwise-distinct keys in a field list. -/
def nodupKeys : List (List Char × Json) → Bool
  | [] => true
  | (k, _) :: fs => !(fs.any (fun p => p.1 = k)) && nodupKeys fs

mutual

/-- A value whose strings need no escaping and whose objects carry no
duplicate keys, recursively. -/
def tameB : Json → Bool
  | .null => true
  | .bool _ => true
  | .num _ => true
  | .str s => tameStr s
  | .arr xs => tameListB xs
  | .obj fs => nodupKeys fs && tameFieldsB fs

/-- `tameB` on a list of elements. -/
def tameListB : List Json → Bool
  | [] => true
  | x :: xs => tameB x && tameListB xs

/-- `tameB` on a field list: keys tame as strings, values tame. -/
def tameFieldsB : List (List Char × Json) → Bool
  | [] => true
  | (k, v) :: fs => tameStr k && tameB v && tameFieldsB fs

end

theorem skipWs_cons_not_ws (c : Char) (cs : List Char) (h : isWsChar c = false) :
    skipWs (c :: cs) = c :: cs := by
  simp [skipWs, h]

theorem munchWhile_append (p : Char → Bool) :
    ∀ (xs rest : List Char), (∀ c ∈ xs, p c = true) →
      (∀ r rs, rest = r :: rs → p r = false) →
      munchWhile p (xs ++ rest) = (xs, rest) := by
  intro xs
  induction xs with
  | nil =>
      intro rest _ hrest
      cases rest with
      | nil => rfl
      | cons r rs => simp [munchWhile, hrest r rs rfl]
  | cons x xs ih =>
      intro rest hall hrest
      have hx : p x = true := hall x (List.mem_cons_self x xs)
      have hih := ih rest (fun c hc => hall c (List.mem_cons_of_mem x hc)) hrest
      simp only [List.cons_append, munchWhile, hx, if_true]
      rw [show xs.append rest = xs ++ rest from rfl, hih]

theorem escapeChar_tame (c : Char) (h : tameChar c = true) : escapeChar c = [c] := by
  simp only [tameChar, Bool.and_eq_true, decide_eq_true_eq, bne_iff_ne, ne_eq] at h
  obtain ⟨⟨hq, hb⟩, hge⟩ := h
  have hn : c ≠ '\n' := by intro hc; subst hc; simp at hge
  have ht : c ≠ '\t' := by intro hc; subst hc; simp at hge
  have hr : c ≠ '\r' := by intro hc; subst hc; simp at hge
  have h8 : ¬ c.toNat = 8 := by omega
  have h12 : ¬ c.toNat = 12 := by omega
  have hlt : ¬ c.toNat < 0x20 := by omega
  simp [escapeChar, hq, hb, hn, ht, hr, h8, h12, hlt]

theorem flatten_escape_tame :
    ∀ s : List Char, tameStr s = true → (s.map escapeChar).flatten = s := by
  intro s
  induction s with
  | nil => intro _; rfl
  | cons c cs ih =>
      intro h
      simp only [tameStr, List.all_cons, Bool.and_eq_true] at h
      simp only [List.map_cons, List.flatten_cons, escapeChar_tame c h.1]
      rw [ih (by simp [tameStr, h.2])]
      rfl

theorem tameChar_facts (c : Char) (h : tameChar c = true) :
    c ≠ '"' ∧ c ≠ '\\' ∧ ¬ c.toNat < 0x20 := by
  simp only [tameChar, Bool.and_eq_true, decide_eq_true_eq, bne_iff_ne, ne_eq] at h
  exact ⟨h.1.1, h.1.2, by omega⟩

theorem parseStringRest_tame :
    ∀ (s : List Char) (rest : List Char) (fuel : Nat), tameStr s = true →
      s.length < fuel →
      parseStringRest fuel (s ++ '"' :: rest) = .ok (s, rest) := by
  intro s
  induction s with
  | nil =>
      intro rest fuel _ hfuel
      obtain ⟨g, rfl⟩ : ∃ g, fuel = g + 1 := ⟨fuel - 1, by omega⟩
      simp only [List.nil_append]
      rfl
  | cons c cs ih =>
      intro rest fuel h hfuel
      obtain ⟨g, rfl⟩ : ∃ g, fuel = g + 1 := ⟨fuel - 1, by omega⟩
      simp only [tameStr, List.all_cons, Bool.and_eq_true] at h
      obtain ⟨hq, hb, hctl⟩ := tameChar_facts c h.1
      have hih := ih rest g (by simp [tameStr, h.2]) (by simp at hfuel; omega)
      rw [List.cons_append, parseStringRest, if_neg hq, if_neg hb, if_neg hctl, hih]
      rfl

theorem serNat_all_digit (n : Nat) : ∀ c ∈ serNat n, c.isDigit = true := by
  intro c hc
  by_cases h : n = 0
  · simp [serNat, h] at hc
    subst hc
    decide
  · simp only [serNat, h, if_false] at hc
    exact digitsOf_all_digit n c hc

theorem serNat_shape (n : Nat) :
    ∃ c t, serNat n = c :: t ∧ c.isDigit = true ∧ (c = '0' → t = []) := by
  by_cases h : n = 0
  · exact ⟨'0', [], by simp [serNat, h], by decide, fun _ => rfl⟩
  · obtain ⟨c, t, hct, hc0⟩ := digitsOf_head_ne_zero n h
    refine ⟨c, t, by simp [serNat, h, hct], ?_, fun hc => absurd hc hc0⟩
    have : c ∈ digitsOf n := by rw [hct]; exact List.mem_cons_self c t
    exact digitsOf_all_digit n c this

theorem valDigits_serNat (n : Nat) : valDigits (serNat n) = n := by
  by_cases h : n = 0
  · simp [serNat, h]
    decide
  · simp only [serNat, h, if_false]
    exact valDigits_digitsOf n

/-- The condition on the input following a serialized number under which
the number parser stops exactly at the boundary. -/
def noNumTail (rest : List Char) : Prop :=
  ∀ c cs, rest = c :: cs → (c.isDigit = false ∧ c ≠ '.' ∧ c ≠ 'e' ∧ c ≠ 'E')

theorem parseNatTok_serNat (n : Nat) (rest : List Char) (h : noNumTail rest) :
    parseNatTok (serNat n ++ rest) = .ok (n, rest) := by
  have hmw : munchWhile Char.isDigit (serNat n ++ rest) = (serNat n, rest) := by
    refine munchWhile_append _ _ _ (serNat_all_digit n) ?_
    intro r rs hr
    exact ((h r rs hr).1)
  obtain ⟨c, t, hct, hdig, hzero⟩ := serNat_shape n
  simp only [parseNatTok, hmw]
  rw [hct]
  have hne : (c :: t).isEmpty = false := by simp
  have hlz : ¬ ((c :: t).head? = some '0' ∧ 1 < (c :: t).length) := by
    rintro ⟨hh, hl⟩
    simp only [List.head?_cons, Option.some.injEq] at hh
    subst hh
    rw [hzero rfl] at hl
    simp at hl
  have htail : ¬ (rest.head? = some '.' ∨ rest.head? = some 'e' ∨ rest.head? = some 'E') := by
    rintro (hh | hh | hh) <;>
      (cases rest with
       | nil => simp at hh
       | cons r rs =>
           simp only [List.head?_cons, Option.some.injEq] at hh
           subst hh
           rcases h _ rs rfl with ⟨_, h1, h2, h3⟩
           simp_all)
  simp only [hne, Bool.false_eq_true, if_false, hlz, if_false, htail, if_false]
  rw [← hct, valDigits_serNat]

theorem isDigit_ne_dash (c : Char) (h : c.isDigit = true) : c ≠ '-' := by
  intro hc
  subst hc
  simp at h

theorem parseIntTok_serInt (i : Int) (rest : List Char) (h : noNumTail rest) :
    parseIntTok (serInt i ++ rest) = .ok (i, rest) := by
  by_cases hi : i < 0
  · simp only [serInt, hi, if_true, List.cons_append, parseIntTok, if_pos rfl]
    rw [parseNatTok_serNat _ _ h]
    simp only [Except.map]
    congr 1
    have : ((-i).toNat : Int) = -i := Int.toNat_of_nonneg (by omega)
    simp [this]
  · simp only [serInt, hi, if_false]
    obtain ⟨c, t, hct, hdig, _⟩ := serNat_shape i.toNat
    rw [hct]
    simp only [List.cons_append, parseIntTok, isDigit_ne_dash c hdig, if_false]
    rw [← List.cons_append, ← hct, parseNatTok_serNat _ _ h]
    simp only [Except.map]
    congr 1
    have : (i.toNat : Int) = i := Int.toNat_of_nonneg (by omega)
    simp [this]

theorem serInt_shape (i : Int) :
    ∃ c t, serInt i = c :: t ∧ (c = '-' ∨ c.isDigit = true) := by
  by_cases hi : i < 0
  · exact ⟨'-', serNat (-i).toNat, by simp [serInt, hi], Or.inl rfl⟩
  · obtain ⟨c, t, hct, hdig, _⟩ := serNat_shape i.toNat
    exact ⟨c, t, by simp [serInt, hi, hct], Or.inr hdig⟩

/-- The possible first characters of a serialized value. -/
theorem ser_shape (v : Json) :
    ∃ c t, ser v = c :: t ∧
      (c = 'n' ∨ c = 't' ∨ c = 'f' ∨ c = '"' ∨ c = '[' ∨ c = '{' ∨
        c = '-' ∨ c.isDigit = true) := by
  cases v with
  | null => exact ⟨'n', ['u', 'l', 'l'], by simp [ser], by tauto⟩
  | bool b =>
      cases b with
      | false => exact ⟨'f', ['a', 'l', 's', 'e'], by simp [ser], by tauto⟩
      | true => exact ⟨'t', ['r', 'u', 'e'], by simp [ser], by tauto⟩
  | num n =>
      obtain ⟨c, t, hct, hc⟩ := serInt_shape n
      refine ⟨c, t, by simp [ser, hct], ?_⟩
      rcases hc with hc | hc
      · tauto
      · tauto
  | str s =>
      exact ⟨'"', (s.map escapeChar).flatten ++ ['"'], by simp [ser, serString], by tauto⟩
  | arr xs => exact ⟨'[', serElems xs ++ [']'], by simp [ser], by tauto⟩
  | obj fs => exact ⟨'{', serFields fs ++ ['}'], by simp [ser], by tauto⟩

theorem isDigit_facts (c : Char) (h : c.isDigit = true) :
    isWsChar c = false ∧ c ≠ ']' ∧ c ≠ '}' := by
  refine ⟨?_, ?_, ?_⟩
  · by_contra hw
    simp only [Bool.not_eq_false, isWsChar, Bool.or_eq_true, decide_eq_true_eq] at hw
    rcases hw with ((h1 | h1) | h1) | h1 <;> (subst h1; simp at h)
  · intro h1; subst h1; simp at h
  · intro h1; subst h1; simp at h

theorem serHead_facts (c : Char)
    (h : c = 'n' ∨ c = 't' ∨ c = 'f' ∨ c = '"' ∨ c = '[' ∨ c = '{' ∨
      c = '-' ∨ c.isDigit = true) :
    isWsChar c = false ∧ c ≠ ']' ∧ c ≠ '}' := by
  rcases h with h | h | h | h | h | h | h | h
  · subst h; exact ⟨by decide, by decide, by decide⟩
  · subst h; exact ⟨by decide, by decide, by decide⟩
  · subst h; exact ⟨by decide, by decide, by decide⟩
  · subst h; exact ⟨by decide, by decide, by decide⟩
  · subst h; exact ⟨by decide, by decide, by decide⟩
  · subst h; exact ⟨by decide, by decide, by decide⟩
  · subst h; exact ⟨by decide, by decide, by decide⟩
  · exact isDigit_facts c h

/-- The head of a serialized value is not whitespace, so `skipWs` leaves a
serialized value (plus anything after it) unchanged. -/
theorem skipWs_ser (v : Json) (l : List Char) : skipWs (ser v ++ l) = ser v ++ l := by
  obtain ⟨c, t, hct, hc⟩ := ser_shape v
  rw [hct, List.cons_append]
  exact skipWs_cons_not_ws _ _ (serHead_facts c hc).1

theorem ser_length_pos (v : Json) : 1 ≤ (ser v).length := by
  obtain ⟨c, t, hct, _⟩ := ser_shape v
  simp [hct]

theorem noNumTail_nil : noNumTail [] := by
  intro c cs h
  cases h

theorem noNumTail_comma (l : List Char) : noNumTail (',' :: l) := by
  intro c cs h
  injection h with h1 _
  subst h1
  exact ⟨by decide, by decide, by decide, by decide⟩

theorem noNumTail_rbracket (l : List Char) : noNumTail (']' :: l) := by
  intro c cs h
  injection h with h1 _
  subst h1
  exact ⟨by decide, by decide, by decide, by decide⟩

theorem noNumTail_rbrace (l : List Char) : noNumTail ('}' :: l) := by
  intro c cs h
  injection h with h1 _
  subst h1
  exact ⟨by decide, by decide, by decide, by decide⟩

theorem setFields_fresh (k : List Char) (v : Json) :
    ∀ acc, (acc.any (fun p => p.1 = k)) = false → setFields k v acc = acc ++ [(k, v)] := by
  intro acc
  induction acc with
  | nil => intro _; rfl
  | cons p ps ih =>
      intro h
      simp only [List.any_cons, Bool.or_eq_false_iff] at h
      have hp : ¬ p.1 = k := by simpa using h.1
      simp only [setFields, hp, if_false, List.cons_append]
      rw [ih h.2]

theorem foldl_setFields :
    ∀ (fs : List (List Char × Json)) (acc : List (List Char × Json)),
      nodupKeys fs = true →
      (∀ p ∈ fs, (acc.any (fun q => q.1 = p.1)) = false) →
      fs.foldl (fun a p => setFields p.1 p.2 a) acc = acc ++ fs := by
  intro fs
  induction fs with
  | nil => intro acc _ _; simp
  | cons f fs' ih =>
      intro acc hnd hfresh
      obtain ⟨k, v⟩ := f
      simp only [nodupKeys, Bool.and_eq_true, Bool.not_eq_true'] at hnd
      simp only [List.foldl_cons]
      rw [setFields_fresh k v acc (hfresh (k, v) (List.mem_cons_self _ _))]
      rw [ih (acc ++ [(k, v)]) hnd.2 ?fresh]
      · simp
      case fresh =>
        intro p hp
        rw [List.any_append]
        simp only [Bool.or_eq_false_iff]
        refine ⟨hfresh p (List.mem_cons_of_mem _ hp), ?_⟩
        simp only [List.any_cons, List.any_nil, Bool.or_false]
        have : ∀ q ∈ fs', ¬ (q.1 = k) := by
          intro q hq hqk
          have := List.any_eq_false.mp hnd.1
          exact absurd (by simpa [hqk] using (rfl : q.1 = q.1)) (by simpa [hqk] using this q hq)
        simpa using fun hkp => (this p hp) hkp.symm

theorem buildObj_nodup (fs : List (List Char × Json)) (h : nodupKeys fs = true) :
    buildObj fs = fs := by
  rw [buildObj, foldl_setFields fs [] h (by intro p _; rfl)]
  rfl

theorem parseValue_null (fuel : Nat) (r : List Char) :
    parseValue (fuel + 1) ('n' :: 'u' :: 'l' :: 'l' :: r) = .ok (.null, r) := rfl

theorem parseValue_true (fuel : Nat) (r : List Char) :
    parseValue (fuel + 1) ('t' :: 'r' :: 'u' :: 'e' :: r) = .ok (.bool true, r) := rfl

theorem parseValue_false (fuel : Nat) (r : List Char) :
    parseValue (fuel + 1) ('f' :: 'a' :: 'l' :: 's' :: 'e' :: r) = .ok (.bool false, r) := rfl

theorem parseValue_quote (fuel : Nat) (cs' : List Char) :
    parseValue (fuel + 1) ('"' :: cs')
      = (parseStringRest (cs'.length + 1) cs').map (fun p => (.str p.1, p.2)) := rfl

theorem parseValue_lbracket (fuel : Nat) (cs' : List Char) :
    parseValue (fuel + 1) ('[' :: cs')
      = (if (skipWs cs').head? = some ']' then .ok (.arr [], (skipWs cs').tail)
         else (parseElems fuel (skipWs cs')).map (fun p => (.arr p.1, p.2))) := rfl

theorem parseValue_lbrace (fuel : Nat) (cs' : List Char) :
    parseValue (fuel + 1) ('{' :: cs')
      = (if (skipWs cs').head? = some '}' then .ok (.obj [], (skipWs cs').tail)
         else (parseFieldList fuel (skipWs cs')).map
           (fun p => (.obj (buildObj p.1), p.2))) := rfl

theorem parseValue_numHead (fuel : Nat) (c : Char) (cs' : List Char)
    (h : (c = '-' || c.isDigit) = true) :
    parseValue (fuel + 1) (c :: cs')
      = (parseIntTok (c :: cs')).map (fun p => (.num p.1, p.2)) := by
  simp [parseValue, h]

theorem serElems_shape (x : Json) (xs : List Json) :
    ∃ c t, serElems (x :: xs) = c :: t ∧
      (c = 'n' ∨ c = 't' ∨ c = 'f' ∨ c = '"' ∨ c = '[' ∨ c = '{' ∨
        c = '-' ∨ c.isDigit = true) := by
  obtain ⟨c, t, hct, hc⟩ := ser_shape x
  cases xs with
  | nil => exact ⟨c, t, by simp [serElems, hct], hc⟩
  | cons y ys =>
      exact ⟨c, t ++ ',' :: serElems (y :: ys), by simp [serElems, hct], hc⟩

theorem skipWs_serElems (x : Json) (xs : List Json) (l : List Char) :
    skipWs (serElems (x :: xs) ++ l) = serElems (x :: xs) ++ l := by
  obtain ⟨c, t, hct, hc⟩ := serElems_shape x xs
  rw [hct, List.cons_append]
  exact skipWs_cons_not_ws _ _ (serHead_facts c hc).1

theorem serFields_cons_eq (k : List Char) (v : Json) (f2 : List Char × Json)
    (fs2 : List (List Char × Json)) :
    serFields ((k, v) :: f2 :: fs2)
      = serString k ++ ':' :: (ser v ++ ',' :: serFields (f2 :: fs2)) := by
  simp [serFields]

theorem skipWs_serFields (f : List Char × Json) (fs : List (List Char × Json))
    (l : List Char) :
    skipWs (serFields (f :: fs) ++ l) = serFields (f :: fs) ++ l := by
  obtain ⟨k, v⟩ := f
  have h : ∃ t, serFields ((k, v) :: fs) = '"' :: t := by
    cases fs with
    | nil => exact ⟨(k.map escapeChar).flatten ++ ['"'] ++ ':' :: ser v, by
        simp [serFields, serString]⟩
    | cons f2 fs2 => exact ⟨(k.map escapeChar).flatten ++ ['"']
        ++ ':' :: (ser v ++ ',' :: serFields (f2 :: fs2)), by
        simp [serFields, serString]⟩
  obtain ⟨t, ht⟩ := h
  rw [ht, List.cons_append]
  exact skipWs_cons_not_ws _ _ (by decide)

mutual

/-- Parsing a serialized tame value followed by a non-numeric tail yields
the value and the tail, for any sufficient fuel. -/
theorem parseValue_ser :
    ∀ (v : Json) (rest : List Char) (fuel : Nat), tameB v = true → noNumTail rest →
      2 * (ser v).length ≤ fuel →
      parseValue fuel (ser v ++ rest) = .ok (v, rest)
  | .null, rest, fuel, _, _, hfuel => by
      have hpos := ser_length_pos .null
      obtain ⟨g, rfl⟩ : ∃ g, fuel = g + 1 := ⟨fuel - 1, by omega⟩
      rw [show ser .null = ['n', 'u', 'l', 'l'] from by simp [ser]]
      exact parseValue_null g rest
  | .bool true, rest, fuel, _, _, hfuel => by
      have hpos := ser_length_pos (.bool true)
      obtain ⟨g, rfl⟩ : ∃ g, fuel = g + 1 := ⟨fuel - 1, by omega⟩
      rw [show ser (.bool true) = ['t', 'r', 'u', 'e'] from by simp [ser]]
      exact parseValue_true g rest
  | .bool false, rest, fuel, _, _, hfuel => by
      have hpos := ser_length_pos (.bool false)
      obtain ⟨g, rfl⟩ : ∃ g, fuel = g + 1 := ⟨fuel - 1, by omega⟩
      rw [show ser (.bool false) = ['f', 'a', 'l', 's', 'e'] from by simp [ser]]
      exact parseValue_false g rest
  | .num n, rest, fuel, _, hnnt, hfuel => by
      have hpos := ser_length_pos (.num n)
      obtain ⟨g, rfl⟩ : ∃ g, fuel = g + 1 := ⟨fuel - 1, by omega⟩
      rw [show ser (.num n) = serInt n from by simp [ser]]
      obtain ⟨c, t, hct, hc⟩ := serInt_shape n
      rw [hct, List.cons_append,
        parseValue_numHead g c (t ++ rest) (by rcases hc with h | h <;> simp [h]),
        ← List.cons_append, ← hct, parseIntTok_serInt n rest hnnt]
      rfl
  | .str s, rest, fuel, htame, _, hfuel => by
      have hpos := ser_length_pos (.str s)
      obtain ⟨g, rfl⟩ : ∃ g, fuel = g + 1 := ⟨fuel - 1, by omega⟩
      have hs : tameStr s = true := by simpa [tameB] using htame
      rw [show ser (.str s) = serString s from by simp [ser]]
      rw [serString, flatten_escape_tame s hs]
      simp only [List.cons_append, List.append_assoc, List.singleton_append, List.nil_append]
      rw [parseValue_quote, parseStringRest_tame s rest _ hs (by simp; omega)]
      rfl
  | .arr [], rest, fuel, _, _, hfuel => by
      have hpos := ser_length_pos (.arr [])
      obtain ⟨g, rfl⟩ : ∃ g, fuel = g + 1 := ⟨fuel - 1, by omega⟩
      rw [show ser (.arr []) = '[' :: (serElems [] ++ [']']) from by simp [ser]]
      rw [show serElems [] = [] from by simp [serElems]]
      rw [List.cons_append, List.nil_append, List.singleton_append,
        parseValue_lbracket, skipWs_cons_not_ws ']' rest (by decide)]
      simp
  | .arr (x :: xs'), rest, fuel, htame, _, hfuel => by
      have hpos := ser_length_pos (.arr (x :: xs'))
      obtain ⟨g, rfl⟩ : ∃ g, fuel = g + 1 := ⟨fuel - 1, by omega⟩
      rw [show ser (.arr (x :: xs')) = '[' :: (serElems (x :: xs') ++ [']'])
        from by simp [ser]] at hfuel ⊢
      have ht : tameListB (x :: xs') = true := by simpa [tameB] using htame
      rw [List.cons_append, List.append_assoc, List.singleton_append,
        parseValue_lbracket, skipWs_serElems x xs']
      obtain ⟨c, t, hct, hc⟩ := serElems_shape x xs'
      have hne : ((serElems (x :: xs') ++ ']' :: rest).head? = some ']') = False := by
        rw [hct]
        simp [(serHead_facts c hc).2.1]
      rw [if_neg (by rw [hne]; exact id)]
      rw [parseElems_ser x xs' rest g ht
        (by simp only [List.length_cons, List.length_append] at hfuel; omega)]
      rfl
  | .obj [], rest, fuel, _, _, hfuel => by
      have hpos := ser_length_pos (.obj [])
      obtain ⟨g, rfl⟩ : ∃ g, fuel = g + 1 := ⟨fuel - 1, by omega⟩
      rw [show ser (.obj []) = '{' :: (serFields [] ++ ['}']) from by simp [ser]]
      rw [show serFields [] = [] from by simp [serFields]]
      rw [List.cons_append, List.nil_append, List.singleton_append,
        parseValue_lbrace, skipWs_cons_not_ws '}' rest (by decide)]
      simp
  | .obj ((k, v) :: fs'), rest, fuel, htame, _, hfuel => by
      have hpos := ser_length_pos (.obj ((k, v) :: fs'))
      obtain ⟨g, rfl⟩ : ∃ g, fuel = g + 1 := ⟨fuel - 1, by omega⟩
      rw [show ser (.obj ((k, v) :: fs')) = '{' :: (serFields ((k, v) :: fs') ++ ['}'])
        from by simp [ser]] at hfuel ⊢
      have hnd : nodupKeys ((k, v) :: fs') = true := by
        have := htame
        simp only [tameB, Bool.and_eq_true] at this
        exact this.1
      have ht : tameFieldsB ((k, v) :: fs') = true := by
        have := htame
        simp only [tameB, Bool.and_eq_true] at this
        exact this.2
      rw [List.cons_append, List.append_assoc, List.singleton_append,
        parseValue_lbrace, skipWs_serFields (k, v) fs']
      have hne : ((serFields ((k, v) :: fs') ++ '}' :: rest).head? = some '}') = False := by
        cases fs' with
        | nil => simp [serFields, serString]
        | cons f2 fs2 => simp [serFields, serString]
      rw [if_neg (by rw [hne]; exact id)]
      rw [parseFieldList_ser (k, v) fs' rest g ht
        (by
          have hlen : ('{' :: (serFields ((k, v) :: fs') ++ ['}'])).length
              = (serFields ((k, v) :: fs')).length + 2 := by simp
          omega)]
      simp only [Except.map]
      rw [buildObj_nodup _ hnd]
termination_by v _ _ _ _ _ => sizeOf v

/-- Parsing serialized elements of a non-empty array, followed by the
closing bracket, yields the elements. -/
theorem parseElems_ser :
    ∀ (x : Json) (xs : List Json) (rest : List Char) (fuel : Nat),
      tameListB (x :: xs) = true →
      2 * (serElems (x :: xs)).length + 1 ≤ fuel →
      parseElems fuel (serElems (x :: xs) ++ ']' :: rest) = .ok (x :: xs, rest)
  | x, [], rest, fuel, htame, hfuel => by
      obtain ⟨g, rfl⟩ : ∃ g, fuel = g + 1 := ⟨fuel - 1, by omega⟩
      have hx : tameB x = true := by
        rw [tameListB, Bool.and_eq_true] at htame
        exact htame.1
      have hse : serElems [x] = ser x := by simp [serElems]
      rw [hse] at hfuel ⊢
      rw [parseElems]
      rw [parseValue_ser x (']' :: rest) g hx (noNumTail_rbracket rest) (by omega)]
      simp [skipWs_cons_not_ws ']' rest (by decide)]
  | x, y :: ys, rest, fuel, htame, hfuel => by
      obtain ⟨g, rfl⟩ : ∃ g, fuel = g + 1 := ⟨fuel - 1, by omega⟩
      have hx : tameB x = true := by
        rw [tameListB, Bool.and_eq_true] at htame
        exact htame.1
      have hys : tameListB (y :: ys) = true := by
        rw [tameListB, Bool.and_eq_true] at htame
        exact htame.2
      have hse : serElems (x :: y :: ys) = ser x ++ ',' :: serElems (y :: ys) := by
        simp [serElems]
      rw [hse] at hfuel ⊢
      have hxpos := ser_length_pos x
      rw [List.append_assoc, List.cons_append, parseElems]
      rw [parseValue_ser x (',' :: (serElems (y :: ys) ++ ']' :: rest)) g hx
        (noNumTail_comma _)
        (by simp only [List.length_cons, List.length_append] at hfuel; omega)]
      simp only [skipWs_cons_not_ws ',' _ (by decide), List.head?_cons, List.tail_cons,
        if_pos, skipWs_serElems y ys,
        parseElems_ser y ys rest g hys
          (by simp only [List.length_cons, List.length_append] at hfuel; omega)]
      rfl
termination_by x xs _ _ _ _ => sizeOf x + sizeOf xs

/-- Parsing serialized members of a non-empty object, followed by the
closing brace, yields the members. -/
theorem parseFieldList_ser :
    ∀ (f : List Char × Json) (fs : List (List Char × Json)) (rest : List Char) (fuel : Nat),
      tameFieldsB (f :: fs) = true →
      2 * (serFields (f :: fs)).length + 1 ≤ fuel →
      parseFieldList fuel (serFields (f :: fs) ++ '}' :: rest) = .ok (f :: fs, rest)
  | (k, v), [], rest, fuel, htame, hfuel => by
      obtain ⟨g, rfl⟩ : ∃ g, fuel = g + 1 := ⟨fuel - 1, by omega⟩
      have h3 := htame
      rw [tameFieldsB, Bool.and_eq_true, Bool.and_eq_true] at h3
      have hk : tameStr k = true := h3.1.1
      have hv : tameB v = true := h3.1.2
      have hvpos := ser_length_pos v
      have hsf : serFields [(k, v)] = serString k ++ ':' :: ser v := by simp [serFields]
      rw [hsf] at hfuel ⊢
      rw [serString, flatten_escape_tame k hk] at hfuel ⊢
      simp only [List.cons_append, List.append_assoc, List.singleton_append,
        List.nil_append] at hfuel ⊢
      rw [parseFieldList]
      simp only [List.head?_cons, List.tail_cons, if_pos]
      rw [parseStringRest_tame k (':' :: (ser v ++ '}' :: rest)) _ hk
        (by simp only [List.length_append, List.length_cons]; omega)]
      simp only [skipWs_cons_not_ws ':' _ (by decide), List.head?_cons, List.tail_cons]
      rw [skipWs_ser v ('}' :: rest)]
      rw [parseValue_ser v ('}' :: rest) g hv (noNumTail_rbrace rest)
        (by simp only [List.length_cons, List.length_append] at hfuel ⊢; omega)]
      simp [skipWs_cons_not_ws '}' rest (by decide)]
  | (k, v), f2 :: fs2, rest, fuel, htame, hfuel => by
      obtain ⟨g, rfl⟩ : ∃ g, fuel = g + 1 := ⟨fuel - 1, by omega⟩
      have h3 := htame
      rw [tameFieldsB, Bool.and_eq_true, Bool.and_eq_true] at h3
      have hk : tameStr k = true := h3.1.1
      have hv : tameB v = true := h3.1.2
      have hvpos := ser_length_pos v
      have hfs2 : tameFieldsB (f2 :: fs2) = true := h3.2
      rw [serFields_cons_eq] at hfuel ⊢
      rw [serString, flatten_escape_tame k hk] at hfuel ⊢
      simp only [List.cons_append, List.append_assoc, List.singleton_append,
        List.nil_append] at hfuel ⊢
      rw [parseFieldList]
      simp only [List.head?_cons, List.tail_cons, if_pos]
      rw [parseStringRest_tame k
        (':' :: (ser v ++ (',' :: (serFields (f2 :: fs2) ++ '}' :: rest)))) _ hk
        (by simp only [List.length_append, List.length_cons]; omega)]
      simp only [skipWs_cons_not_ws ':' _ (by decide), List.head?_cons, List.tail_cons]
      rw [skipWs_ser v _]
      rw [parseValue_ser v (',' :: (serFields (f2 :: fs2) ++ '}' :: rest)) g hv
        (noNumTail_comma _)
        (by simp only [List.length_cons, List.length_append] at hfuel ⊢; omega)]
      simp only [skipWs_cons_not_ws ',' _ (by decide), List.head?_cons, List.tail_cons]
      rw [skipWs_serFields f2 fs2]
      rw [parseFieldList_ser f2 fs2 rest g hfs2
        (by simp only [List.length_cons, List.length_append] at hfuel ⊢; omega)]
      rfl
termination_by f fs _ _ _ _ => sizeOf f + sizeOf fs

end

/-- `JSON.parse` is a left inverse of `JSON.stringify` on tame values. -/
theorem jsonParse_stringify (v : Json) (h : tameB v = true) :
    jsonParse (stringify v) = .ok v := by
  have h1 : skipWs (ser v) = ser v := by
    have := skipWs_ser v []
    simpa using this
  have h2 := parseValue_ser v [] (2 * (ser v).length + 2) h noNumTail_nil (by omega)
  rw [List.append_nil] at h2
  simp only [jsonParse, stringify, h1, h2]
  rfl

/-! ## The JSON recovery utility: `src/backend/utils/jsonParser.js`

`parseJSON` and its helpers `extractJSONString`, `cleanText` and
`fixComparisonDataStructure` are embedded below.  Each JavaScript
`String.replace(regex, …)` call is modelled by `scanRepl` applied to a
matcher for that specific pattern: the scan tries the pattern at each
position left to right, replaces a match and resumes after it — the
semantics of a `/g` regex replace (each of these patterns is deterministic:
the greedy quantifiers never need backtracking).  A matcher returns the
replacement text and the number of characters consumed (always at least
one).  JavaScript `\s` is modelled by the six ASCII whitespace characters;
`\w` by ASCII letters, digits and underscore. -/

/-- JavaScript `\s` (ASCII range). -/
def isJsSpace (c : Char) : Bool :=
  c = ' ' || c = '\t' || c = '\n' || c = '\r' || c.toNat = 11 || c.toNat = 12

/-- JavaScript `\w`: ASCII letter, digit or underscore. -/
def isWordChar (c : Char) : Bool := c.isAlpha || c.isDigit || c = '_'

/-- Left-to-right global regex replace: try the matcher at each position;
on a match, emit the replacement and resume after the consumed characters.
The fuel is the input length, which suffices because every matcher
consumes at least one character. -/
def scanReplF (m : List Char → Option (List Char × Nat)) : Nat → List Char → List Char
  | 0, l => l
  | _ + 1, [] => []
  | fuel + 1, c :: cs =>
      match m (c :: cs) with
      | some (rep, k) => rep ++ scanReplF m fuel (cs.drop (k - 1))
      | none => c :: scanReplF m fuel cs

/-- Global regex replace (see `scanReplF`). -/
def scanRepl (m : List Char → Option (List Char × Nat)) (l : List Char) : List Char :=
  scanReplF m l.length l

/-- Literal (non-regex-metacharacter) pattern replace, e.g. the markdown
fence removals `/```json/g` and `/```/g`. -/
def matchLit (lit rep : List Char) : List Char → Option (List Char × Nat) :=
  fun l => if lit.isPrefixOf l then some (rep, lit.length) else none

/-- `/,\s*]/g → ']'` (drop trailing comma in an array). -/
def rCommaBracket (l : List Char) : Option (List Char × Nat) :=
  match l with
  | ',' :: r =>
      let (sp, r') := munchWhile isJsSpace r
      match r' with
      | ']' :: _ => some ([']'], 1 + sp.length + 1)
      | _ => none
  | _ => none

/-- `/,\s*}/g → '}'` (drop trailing comma in an object). -/
def rCommaBrace (l : List Char) : Option (List Char × Nat) :=
  match l with
  | ',' :: r =>
      let (sp, r') := munchWhile isJsSpace r
      match r' with
      | '}' :: _ => some (['}'], 1 + sp.length + 1)
      | _ => none
  | _ => none

/-- `/([{,]\s*)(\w+)(\s*:)/g → '$1"$2"$3'` (quote bare property names). -/
def rQuoteProps (l : List Char) : Option (List Char × Nat) :=
  match l with
  | c :: r =>
      if c = '{' || c = ',' then
        let (sp1, r1) := munchWhile isJsSpace r
        let (w, r2) := munchWhile isWordChar r1
        if w.isEmpty then none
        else
          let (sp2, r3) := munchWhile isJsSpace r2
          match r3 with
          | ':' :: _ =>
              some (c :: sp1 ++ '"' :: w ++ '"' :: sp2 ++ [':'],
                1 + sp1.length + w.length + sp2.length + 1)
          | _ => none
      else none
  | _ => none

/-- `/:\s*'([^']*)'/g → ':"$1"'` (single-quoted value to double-quoted;
the whitespace is not in a capture group and is dropped). -/
def rSingleQuote (l : List Char) : Option (List Char × Nat) :=
  match l with
  | ':' :: r =>
      let (sp, r1) := munchWhile isJsSpace r
      match r1 with
      | '\'' :: r2 =>
          let (content, r3) := munchWhile (fun c => !(c = '\'')) r2
          match r3 with
          | '\'' :: _ =>
              some (':' :: '"' :: content ++ ['"'],
                1 + sp.length + 1 + content.length + 1)
          | _ => none
      | _ => none
  | _ => none

/-- `/:\s*undefined/g → ':null'`. -/
def rUndefined (l : List Char) : Option (List Char × Nat) :=
  match l with
  | ':' :: r =>
      let (sp, r1) := munchWhile isJsSpace r
      if ("undefined".data).isPrefixOf r1 then
        some ((":null").data, 1 + sp.length + 9)
      else none
  | _ => none

/-- `/:\s*NaN/g → ':0'`. -/
def rNaN (l : List Char) : Option (List Char × Nat) :=
  match l with
  | ':' :: r =>
      let (sp, r1) := munchWhile isJsSpace r
      if ("NaN".data).isPrefixOf r1 then
        some ((":0").data, 1 + sp.length + 3)
      else none
  | _ => none

/-- `/}\s*{/g → '},{'`. -/
def rBraceBrace (l : List Char) : Option (List Char × Nat) :=
  match l with
  | '}' :: r =>
      let (sp, r') := munchWhile isJsSpace r
      match r' with
      | '{' :: _ => some (['}', ',', '{'], 1 + sp.length + 1)
      | _ => none
  | _ => none

/-- `/]\s*{/g → '],['`. -/
def rBracketBrace (l : List Char) : Option (List Char × Nat) :=
  match l with
  | ']' :: r =>
      let (sp, r') := munchWhile isJsSpace r
      match r' with
      | '{' :: _ => some ([']', ',', '['], 1 + sp.length + 1)
      | _ => none
  | _ => none

/-- `/}\s*\[/g → '},'` (note: the source drops the `[`). -/
def rBraceBracket (l : List Char) : Option (List Char × Nat) :=
  match l with
  | '}' :: r =>
      let (sp, r') := munchWhile isJsSpace r
      match r' with
      | '[' :: _ => some (['}', ','], 1 + sp.length + 1)
      | _ => none
  | _ => none

/-- `/]\s*\[/g → '],'` (note: the source drops the `[`). -/
def rBracketBracket (l : List Char) : Option (List Char × Nat) :=
  match l with
  | ']' :: r =>
      let (sp, r') := munchWhile isJsSpace r
      match r' with
      | '[' :: _ => some ([']', ','], 1 + sp.length + 1)
      | _ => none
  | _ => none

/-- `/}+}/g → '}}'`: a maximal run of two or more `}` collapses to two. -/
def rMultiBrace (l : List Char) : Option (List Char × Nat) :=
  match l with
  | '}' :: r =>
      let (run, _) := munchWhile (fun c => c = '}') r
      if run.isEmpty then none else some (['}', '}'], 1 + run.length)
  | _ => none

/-- `/]+]/g → ']]'`: a maximal run of two or more `]` collapses to two. -/
def rMultiBracket (l : List Char) : Option (List Char × Nat) :=
  match l with
  | ']' :: r =>
      let (run, _) := munchWhile (fun c => c = ']') r
      if run.isEmpty then none else some ([']', ']'], 1 + run.length)
  | _ => none

/-- `/}+]/g → '}]'`: a run of `}` before a `]` collapses to one. -/
def rBraceRunBracket (l : List Char) : Option (List Char × Nat) :=
  match l with
  | '}' :: r =>
      let (run, r') := munchWhile (fun c => c = '}') r
      match r' with
      | ']' :: _ => some (['}', ']'], 1 + run.length + 1)
      | _ => none
  | _ => none

/-- `/}{/g → '},{'`. -/
def rBraceOpen (l : List Char) : Option (List Char × Nat) :=
  match l with
  | '}' :: '{' :: _ => some (['}', ',', '{'], 2)
  | _ => none

/-- `/][/g → '],['`. -/
def rBracketOpen (l : List Char) : Option (List Char × Nat) :=
  match l with
  | ']' :: '[' :: _ => some ([']', ',', '['], 2)
  | _ => none

/-- `/([^}])\s*$/g` with the replacement function of the source: if the
captured character is `{`, `[`, `,` or `:`, append `null` after it (the
trailing whitespace, not captured, is dropped); otherwise leave the match
unchanged. -/
def rTailFix (l : List Char) : Option (List Char × Nat) :=
  match l with
  | c :: r =>
      if c = '}' then none
      else
        let (sp, r') := munchWhile isJsSpace r
        if r'.isEmpty then
          if c = '{' || c = '[' || c = ',' || c = ':' then
            some (c :: ('n' :: 'u' :: 'l' :: 'l' :: []), 1 + sp.length)
          else some (c :: sp, 1 + sp.length)
        else none
  | _ => none

/-- Index of the first occurrence of `c`, if any. -/
def idxOfAux (c : Char) : List Char → Nat → Option Nat
  | [], _ => none
  | x :: xs, i => if x = c then some i else idxOfAux c xs (i + 1)

/-- Index of the last occurrence of `c`, if any. -/
def lastIdxAux (c : Char) : List Char → Nat → Option Nat → Option Nat
  | [], _, acc => acc
  | x :: xs, i, acc => lastIdxAux c xs (i + 1) (if x = c then some i else acc)

/-- `extractJSONString`: the substring from the first `{` to the last `}`
(inclusive), or the input unchanged when that span does not exist. -/
def extractJSONString (input : List Char) : List Char :=
  match idxOfAux '{' input 0, lastIdxAux '}' input 0 none with
  | some firstBrace, some lastBrace =>
      if lastBrace ≤ firstBrace then input
      else (input.drop firstBrace).take (lastBrace - firstBrace + 1)
  | _, _ => input

/-- The chain of syntax rewrites of `cleanText` (`jsonParser.js` lines
68–97), in source order. -/
def fixSyntaxIssues (input : List Char) : List Char :=
  input
  |> scanRepl rCommaBracket
  |> scanRepl rCommaBrace
  |> scanRepl rQuoteProps
  |> scanRepl rSingleQuote
  |> scanRepl rUndefined
  |> scanRepl rNaN
  |> scanRepl rBraceBrace
  |> scanRepl rBracketBrace
  |> scanRepl rBraceBracket
  |> scanRepl rBracketBracket
  |> scanRepl rMultiBrace
  |> scanRepl rMultiBracket
  |> scanRepl rBraceRunBracket
  |> scanRepl rBraceOpen
  |> scanRepl rBracketOpen
  |> scanRepl rTailFix

/-- Does the pattern match starting at some position (JavaScript
`RegExp.test`)? -/
def hasMatch (m : List Char → Bool) : List Char → Bool
  | [] => m []
  | c :: cs => m (c :: cs) || hasMatch m cs

/-- Drop a literal prefix, if present. -/
def dropLit (lit l : List Char) : Option (List Char) :=
  if lit.isPrefixOf l then some (l.drop lit.length) else none

/-- Test `"rolesSalaries"\s*:\s*\[\s*{[^}\]]*$` at one position. -/
def testRolesSalariesOpen (l : List Char) : Bool :=
  match dropLit ("\"rolesSalaries\"").data l with
  | none => false
  | some r =>
      let (_, r1) := munchWhile isJsSpace r
      match r1 with
      | ':' :: r2 =>
          let (_, r3) := munchWhile isJsSpace r2
          match r3 with
          | '[' :: r4 =>
              let (_, r5) := munchWhile isJsSpace r4
              match r5 with
              | '{' :: r6 =>
                  let (_, r7) := munchWhile (fun c => !(c = '}') && !(c = ']')) r6
                  r7.isEmpty
              | _ => false
          | _ => false
      | _ => false

/-- Test `"requiredSkills"\s*:\s*\[\s*"[^"\]]*$` at one position. -/
def testRequiredSkillsOpen (l : List Char) : Bool :=
  match dropLit ("\"requiredSkills\"").data l with
  | none => false
  | some r =>
      let (_, r1) := munchWhile isJsSpace r
      match r1 with
      | ':' :: r2 =>
          let (_, r3) := munchWhile isJsSpace r2
          match r3 with
          | '[' :: r4 =>
              let (_, r5) := munchWhile isJsSpace r4
              match r5 with
              | '"' :: r6 =>
                  let (_, r7) := munchWhile (fun c => !(c = '"') && !(c = ']')) r6
                  r7.isEmpty
              | _ => false
          | _ => false
      | _ => false

/-- `/}(\s*){/g → '},\n$1{'` (comma between `rolesSalaries` items). -/
def rFixBraceComma (l : List Char) : Option (List Char × Nat) :=
  match l with
  | '}' :: r =>
      let (sp, r') := munchWhile isJsSpace r
      match r' with
      | '{' :: _ => some ('}' :: ',' :: '\n' :: sp ++ ['{'], 1 + sp.length + 1)
      | _ => none
  | _ => none

/-- `/"(\s*)"/g → '",\n$1"'` (comma between skill items). -/
def rFixQuoteComma (l : List Char) : Option (List Char × Nat) :=
  match l with
  | '"' :: r =>
      let (sp, r') := munchWhile isJsSpace r
      match r' with
      | '"' :: _ => some ('"' :: ',' :: '\n' :: sp ++ ['"'], 1 + sp.length + 1)
      | _ => none
  | _ => none

/-- `fixComparisonDataStructure` (`jsonParser.js` lines 126–156). -/
def fixComparisonDataStructure (dataType : String) (text : List Char) : List Char :=
  let fixed := text
  let fixed :=
    if dataType = "comparison" || dataType = "countryComparison" then
      let fixed :=
        if hasMatch testRolesSalariesOpen fixed then fixed ++ ('}' :: [']']) else fixed
      scanRepl rFixBraceComma fixed
    else fixed
  if dataType = "comparison" || dataType = "roleComparison" then
    let fixed :=
      if hasMatch testRequiredSkillsOpen fixed then fixed ++ ('"' :: [']']) else fixed
    scanRepl rFixQuoteComma fixed
  else fixed

/-- Bracket balancing (`jsonParser.js` lines 106–120 and the analogous
blocks of strategies 5 and 6): count brackets and append the missing
closers, braces first. -/
def balanceBrackets (l : List Char) : List Char :=
  let openB := l.count '{'
  let closeB := l.count '}'
  let openK := l.count '['
  let closeK := l.count ']'
  let l1 := if closeB < openB then l ++ List.replicate (openB - closeB) '}' else l
  if closeK < openK then l1 ++ List.replicate (openK - closeK) ']' else l1

/-- `cleanText` (`jsonParser.js` lines 60–123): markdown fence removal,
JSON extraction, the syntax-rewrite chain, the data-type specific fixes
and bracket balancing, in source order. -/
def cleanText (dataType : String) (input : List Char) : List Char :=
  let cleaned := scanRepl (matchLit ("```json").data []) input
  let cleaned := scanRepl (matchLit ("```").data []) cleaned
  let cleaned := extractJSONString cleaned
  let cleaned := fixSyntaxIssues cleaned
  let cleaned :=
    if dataType = "comparison" || dataType = "countryComparison"
        || dataType = "roleComparison" then
      fixComparisonDataStructure dataType cleaned
    else cleaned
  balanceBrackets cleaned

/-- Test `[{,]\s*"[^"]+"\s*:(\s*)$` at one position (strategy 4). -/
def testDanglingProperty (l : List Char) : Bool :=
  match l with
  | c :: r =>
      if c = '{' || c = ',' then
        let (_, r1) := munchWhile isJsSpace r
        match r1 with
        | '"' :: r2 =>
            let (content, r3) := munchWhile (fun c => !(c = '"')) r2
            if content.isEmpty then false
            else
              match r3 with
              | '"' :: r4 =>
                  let (_, r5) := munchWhile isJsSpace r4
                  match r5 with
                  | ':' :: r6 =>
                      let (_, r7) := munchWhile isJsSpace r6
                      r7.isEmpty
                  | _ => false
              | _ => false
        | _ => false
      else false
  | [] => false

/-- Test `,\s*$` at one position (strategy 4). -/
def testTrailingComma (l : List Char) : Bool :=
  match l with
  | ',' :: r => (munchWhile isJsSpace r).2.isEmpty
  | _ => false

/-- `/,\s*$/` replace with the empty string (strategy 4; at most one
position can match an end-anchored pattern, so the global scan performs
the single replace of the source). -/
def rTrailingComma (l : List Char) : Option (List Char × Nat) :=
  match l with
  | ',' :: r =>
      let (sp, r') := munchWhile isJsSpace r
      if r'.isEmpty then some ([], 1 + sp.length) else none
  | _ => none

/-- Test `"rolesSalaries"\s*:\s*\[\s*{[^}]*}\s*$` at one position
(strategy 5). -/
def testRolesSalariesClosed (l : List Char) : Bool :=
  match dropLit ("\"rolesSalaries\"").data l with
  | none => false
  | some r =>
      let (_, r1) := munchWhile isJsSpace r
      match r1 with
      | ':' :: r2 =>
          let (_, r3) := munchWhile isJsSpace r2
          match r3 with
          | '[' :: r4 =>
              let (_, r5) := munchWhile isJsSpace r4
              match r5 with
              | '{' :: r6 =>
                  let (_, r7) := munchWhile (fun c => !(c = '}')) r6
                  match r7 with
                  | '}' :: r8 => (munchWhile isJsSpace r8).2.isEmpty
                  | _ => false
              | _ => false
          | _ => false
      | _ => false

/-- Consume one optional character (a regex `x?`). -/
def optChar (c : Char) (l : List Char) : List Char :=
  match l with
  | x :: r => if x = c then r else x :: r
  | [] => []

/-- Test `"(currentCountry|targetCountry)"\s*:\s*{[^}]*}\s*}+\s*]?\s*]?\s*}?\s*$`
at one position (strategy 6). -/
def testNestedCountry (l : List Char) : Bool :=
  let afterName :=
    match dropLit ("\"currentCountry\"").data l with
    | some r => some r
    | none => dropLit ("\"targetCountry\"").data l
  match afterName with
  | none => false
  | some r =>
      let (_, r1) := munchWhile isJsSpace r
      match r1 with
      | ':' :: r2 =>
          let (_, r3) := munchWhile isJsSpace r2
          match r3 with
          | '{' :: r4 =>
              let (_, r5) := munchWhile (fun c => !(c = '}')) r4
              match r5 with
              | '}' :: r6 =>
                  let (_, r7) := munchWhile isJsSpace r6
                  let (run, r8) := munchWhile (fun c => c = '}') r7
                  if run.isEmpty then false
                  else
                    let (_, r9) := munchWhile isJsSpace r8
                    let r10 := optChar ']' r9
                    let (_, r11) := munchWhile isJsSpace r10
                    let r12 := optChar ']' r11
                    let (_, r13) := munchWhile isJsSpace r12
                    let r14 := optChar '}' r13
                    (munchWhile isJsSpace r14).2.isEmpty
              | _ => false
          | _ => false
      | _ => false

/-- Test `}+\]+$` at one position (strategy 7). -/
def testClosersRun (l : List Char) : Bool :=
  match l with
  | '}' :: r =>
      let (_, r1) := munchWhile (fun c => c = '}') r
      match r1 with
      | ']' :: r2 => (munchWhile (fun c => c = ']') r2).2.isEmpty
      | _ => false
  | _ => false

/-- Strategy 7's repair loop: walk the text keeping running bracket
counts; a closing brace or bracket that would exceed its opener count is
removed (and not counted), every other character is kept. -/
def removeExtraClosers : List Char → Nat → Nat → Nat → Nat → List Char
  | [], _, _, _, _ => []
  | c :: cs, ob, cb, ok, ck =>
      if c = '{' then c :: removeExtraClosers cs (ob + 1) cb ok ck
      else if c = '}' then
        if ob < cb + 1 then removeExtraClosers cs ob cb ok ck
        else c :: removeExtraClosers cs ob (cb + 1) ok ck
      else if c = '[' then c :: removeExtraClosers cs ob cb (ok + 1) ck
      else if c = ']' then
        if ok < ck + 1 then removeExtraClosers cs ob cb ok ck
        else c :: removeExtraClosers cs ob cb ok (ck + 1)
      else c :: removeExtraClosers cs ob cb ok ck

/-- The try-block of `parseJSON` (`jsonParser.js` lines 159–339): the
seven parsing strategies in order.  `json5` and `jsonrepair` are external
libraries, abstracted as oracles; an `.error` result models the library
throwing.  On overall failure the list of recorded attempts
(method name, error message) is returned. -/
def parseJSONCore (json5 : String → Except String Json)
    (jsonrepair : String → Except String String)
    (text : List Char) (dataType : String) :
    Except (List (String × String)) Json :=
  let cleaned := cleanText dataType text
  match jsonParse cleaned with
  | .ok v => .ok v
  | .error e1 =>
    let a1 := [("JSON.parse", e1)]
    match json5 (String.mk cleaned) with
    | .ok v => .ok v
    | .error e2 =>
      let a2 := a1 ++ [("JSON5", e2)]
      match (match jsonrepair (String.mk cleaned) with
             | .ok rep => jsonParse rep.data
             | .error er => .error er) with
      | .ok v => .ok v
      | .error e3 =>
        let a3 := a2 ++ [("jsonrepair", e3)]
        let f1 := if hasMatch testDanglingProperty cleaned
          then cleaned ++ ('n' :: 'u' :: 'l' :: ['l']) else cleaned
        let f2 := if hasMatch testTrailingComma f1 then scanRepl rTrailingComma f1 else f1
        match jsonParse f2 with
        | .ok v => .ok v
        | .error e4 =>
          let a4 := a3 ++ [("truncation-fixing", e4)]
          let s5 : List (String × String) ⊕ Json :=
            if hasMatch testRolesSalariesClosed cleaned then
              match jsonParse (balanceBrackets (cleaned ++ [']'])) with
              | .ok v => .inr v
              | .error e5 => .inl (a4 ++ [("rolesSalaries-fixing", e5)])
            else .inl a4
          match s5 with
          | .inr v => .ok v
          | .inl a5 =>
            let s6 : List (String × String) ⊕ Json :=
              if hasMatch testNestedCountry cleaned then
                match jsonParse (balanceBrackets cleaned) with
                | .ok v => .inr v
                | .error e6 => .inl (a5 ++ [("nested-objects-fixing", e6)])
              else .inl a5
            match s6 with
            | .inr v => .ok v
            | .inl a6 =>
              let s7 : List (String × String) ⊕ Json :=
                if hasMatch testClosersRun cleaned then
                  match jsonParse (removeExtraClosers cleaned 0 0 0 0) with
                  | .ok v => .inr v
                  | .error e7 => .inl (a6 ++ [("multiple-closing-braces-fixing", e7)])
                else .inl a6
              match s7 with
              | .inr v => .ok v
              | .inl a7 => .error a7

/-- The message of the error thrown when all strategies fail
(`jsonParser.js` line 338–339). -/
def failMsg (atts : List (String × String)) : String :=
  "All JSON parsing methods failed: "
    ++ String.intercalate "; " (atts.map (fun a => a.1 ++ ": " ++ a.2))

/-- `parseJSON` (`jsonParser.js`): run the strategies; on failure return
the fallback data if it has at least one key (`Object.keys(fallbackData)
.length > 0`), otherwise re-throw the error.  Defaults mirror the source:
`fallbackData = {}`, `dataType = 'general'`. -/
def parseJSON (json5 : String → Except String Json)
    (jsonrepair : String → Except String String)
    (text : String) (fallbackData : Json := .obj []) (dataType : String := "general") :
    Except String Json :=
  match parseJSONCore json5 jsonrepair text.data dataType with
  | .ok v => .ok v
  | .error atts =>
      if 0 < numKeys fallbackData then .ok fallbackData
      else .error (failMsg atts)

/-! ## The dashboard service: `src/backend/services/aiDashboard.js`

`validateComparisonData` and the retry orchestration of
`generateComparisonInsights` are embedded below.  The Gemini call of each
attempt is abstracted as an oracle `gen : Nat → Option Json`: `gen k` is
the parsed data of attempt `k`, and `none` models the attempt failing
(the generation call throwing, or `parseJSON` throwing — with default
options it has no usable fallback).  The prompt construction, logging and
the back-off waits have no effect on the returned value and are elided;
the `userData` extraction (lines 35–42) only feeds the prompt and the
four names used by validation, which the model takes directly as the
strings `currentCountry`, `targetCountry`, `currentRole`, `targetRole`.
`new Date().toISOString()` is nondeterministic and passed in as `now`. -/

/-- Is the optional value a JavaScript array? -/
def isArrO : Option Json → Bool
  | some (.arr _) => true
  | _ => false

/-- `typeof x === 'boolean'` on an optional value. -/
def typeofBooleanO : Option Json → Bool
  | some (.bool _) => true
  | _ => false

/-- `typeof x === 'number'` on an optional value. -/
def typeofNumberO : Option Json → Bool
  | some (.num _) => true
  | _ => false

/-- `typeof x === 'number' || typeof x === 'string'` on an optional
value. -/
def numOrStrO : Option Json → Bool
  | some (.num _) => true
  | some (.str _) => true
  | _ => false

/-- The result of `validateComparisonData`. -/
structure ValidationReport where
  isComplete : Bool
  missingFields : List String
deriving DecidableEq

/-- The `forEach` over a `topCities` array (`aiDashboard.js` lines
278–286 and 303–311): a non-object entry is only reported; an object
entry whose `rolesSalaries` is not an array is reported and gets
`rolesSalaries` assigned the empty array in place. -/
def validateCities (label : String) : List Json → Nat → List Json × List String
  | [], _ => ([], [])
  | city :: rest, i =>
      let (rest', msgs) := validateCities label rest (i + 1)
      if !city.truthy || !city.typeofObject then
        (city :: rest',
          (label ++ ".topCities[" ++ toString i ++ "] is not a valid object") :: msgs)
      else if !(isArrO (getField city "rolesSalaries")) then
        (setField city "rolesSalaries" (.arr []) :: rest',
          (label ++ ".topCities[" ++ toString i ++ "].rolesSalaries is not an array") :: msgs)
      else (city :: rest', msgs)

/-- Validation of one country object of `countrySalaryComparison`
(`aiDashboard.js` lines 266–287 / 291–312). -/
def validateCountry (country : Json) (label expectedName : String) : Json × List String :=
  let nameMsgs :=
    if getField country "name" = some (jstr expectedName) then []
    else [label ++ ".name (expected: " ++ expectedName ++ ")"]
  match getField country "topCities" with
  | some (.arr cities) =>
      if cities.isEmpty then (country, nameMsgs ++ [label ++ ".topCities"])
      else
        let (cities', cityMsgs) := validateCities label cities 0
        (setField country "topCities" (.arr cities'), nameMsgs ++ cityMsgs)
  | _ => (country, nameMsgs ++ [label ++ ".topCities"])

/-- `validateComparisonData` (`aiDashboard.js` lines 251–379): checks the
three required sections and, as a side effect modelled by returning the
updated value, assigns `[]` to any city's non-array `rolesSalaries`. -/
def validateComparisonData (data : Json)
    (currentCountry targetCountry currentRole targetRole : String) :
    Json × ValidationReport :=
  if !data.truthy then
    (data, ⟨false, ["entire data structure"]⟩)
  else
    let (data₁, cscMsgs) :=
      match getField data "countrySalaryComparison" with
      | none => (data, ["countrySalaryComparison"])
      | some csc =>
          if !csc.truthy then (data, ["countrySalaryComparison"])
          else
            let (csc₁, curMsgs) :=
              match getField csc "currentCountry" with
              | some cur =>
                  if cur.truthy then
                    let (cur', ms) := validateCountry cur
                      "countrySalaryComparison.currentCountry" currentCountry
                    (setField csc "currentCountry" cur', ms)
                  else (csc, ["countrySalaryComparison.currentCountry"])
              | none => (csc, ["countrySalaryComparison.currentCountry"])
            let (csc₂, tgtMsgs) :=
              match getField csc₁ "targetCountry" with
              | some tgt =>
                  if tgt.truthy then
                    let (tgt', ms) := validateCountry tgt
                      "countrySalaryComparison.targetCountry" targetCountry
                    (setField csc₁ "targetCountry" tgt', ms)
                  else (csc₁, ["countrySalaryComparison.targetCountry"])
              | none => (csc₁, ["countrySalaryComparison.targetCountry"])
            (setField data "countrySalaryComparison" csc₂, curMsgs ++ tgtMsgs)
    let roleMsgs :=
      match getField data "roleComparison" with
      | some rc =>
          if rc.truthy then
            (match getField rc "currentRole" with
             | some cr =>
                 if cr.truthy then
                   (if getField cr "title" = some (jstr currentRole) then []
                    else ["roleComparison.currentRole.title (expected: "
                      ++ currentRole ++ ")"])
                   ++ (match getField cr "requiredSkills" with
                       | some (.arr xs) =>
                           if xs.isEmpty then ["roleComparison.currentRole.requiredSkills"]
                           else []
                       | _ => ["roleComparison.currentRole.requiredSkills"])
                 else ["roleComparison.currentRole"]
             | none => ["roleComparison.currentRole"])
            ++ (match getField rc "targetRole" with
                | some tr =>
                    if tr.truthy then
                      (if getField tr "title" = some (jstr targetRole) then []
                       else ["roleComparison.targetRole.title (expected: "
                         ++ targetRole ++ ")"])
                      ++ (match getField tr "requiredSkills" with
                          | some (.arr xs) =>
                              if xs.isEmpty then ["roleComparison.targetRole.requiredSkills"]
                              else []
                          | _ => ["roleComparison.targetRole.requiredSkills"])
                    else ["roleComparison.targetRole"]
                | none => ["roleComparison.targetRole"])
            ++ (if isArrO (getField rc "skillGaps") then [] else ["roleComparison.skillGaps"])
            ++ (if isArrO (getField rc "transferableSkills") then []
                else ["roleComparison.transferableSkills"])
          else ["roleComparison"]
      | none => ["roleComparison"]
    let seaMsgs :=
      match getField data "salaryExpectationAnalysis" with
      | some sea =>
          if sea.truthy then
            (if typeofBooleanO (getField sea "isRealistic") then []
             else ["salaryExpectationAnalysis.isRealistic"])
            ++ (if typeofNumberO (getField sea "percentile") then []
                else ["salaryExpectationAnalysis.percentile"])
            ++ (if truthyO (getField sea "recommendation") then []
                else ["salaryExpectationAnalysis.recommendation"])
          else ["salaryExpectationAnalysis"]
      | none => ["salaryExpectationAnalysis"]
    let missing := cscMsgs ++ roleMsgs ++ seaMsgs
    (data₁, ⟨missing.isEmpty, missing⟩)

/-- The default `roleComparison` backfill (`aiDashboard.js` lines
217–222). -/
def defaultRoleComparison (currentRole targetRole : String) : Json :=
  .obj [("currentRole".data, .obj [("title".data, jstr currentRole),
          ("requiredSkills".data, .arr []), ("avgSalary".data, .num 0),
          ("growthOutlook".data, jstr "Neutral"), ("demandLevel".data, jstr "Medium")]),
        ("targetRole".data, .obj [("title".data, jstr targetRole),
          ("requiredSkills".data, .arr []), ("avgSalary".data, .num 0),
          ("growthOutlook".data, jstr "Neutral"), ("demandLevel".data, jstr "Medium")]),
        ("skillGaps".data, .arr []),
        ("transferableSkills".data, .arr [])]

/-- The default `salaryExpectationAnalysis` backfill (`aiDashboard.js`
lines 226–231). -/
def defaultSalaryAnalysis : Json :=
  .obj [("isRealistic".data, .bool true), ("differenceFromMedian".data, .num 0),
        ("percentile".data, .num 50),
        ("recommendation".data, jstr "No salary analysis available. Please try again later.")]

/-- The `_meta` object (`aiDashboard.js` lines 236–241). -/
def metaObj (now : String) (attempts : Nat) (isComplete : Bool) : Json :=
  .obj [("generatedAt".data, jstr now), ("source".data, jstr "Gemini AI"),
        ("attempts".data, .num attempts), ("isComplete".data, .bool isComplete)]

/-- The retry loop of `generateComparisonInsights` (`aiDashboard.js`
lines 168–209): up to `remaining` further attempts; a failed attempt
leaves `data` unchanged, a parsed attempt is validated (with its
`rolesSalaries` mutations) and the loop stops early on complete data.
Returns the attempt counter, the last data value and the completeness
flag. -/
def runAttempts (gen : Nat → Option Json) (cc tc cr tr : String) :
    Nat → Nat → Option Json → Nat × Option Json × Bool
  | 0, attempts, data => (attempts, data, false)
  | remaining + 1, attempts, data =>
      let a := attempts + 1
      match gen a with
      | none => runAttempts gen cc tc cr tr remaining a data
      | some parsed =>
          let vr := validateComparisonData parsed cc tc cr tr
          if vr.2.isComplete then (a, some vr.1, true)
          else runAttempts gen cc tc cr tr remaining a (some vr.1)

/-- `generateComparisonInsights` (`aiDashboard.js` lines 24–248) after
the retry loop: on complete data, attach `_meta` and return; otherwise
backfill falsy `roleComparison` and `salaryExpectationAnalysis` (but not
`countrySalaryComparison`), attach `_meta` and return — unless no attempt
ever produced data, in which case reading `null.roleComparison` throws a
`TypeError` that the outer catch re-throws.  A primitive result would
likewise make the strict-mode property writes throw. -/
def generateComparisonInsights (gen : Nat → Option Json)
    (now cc tc cr tr : String) : Except String Json :=
  let r := runAttempts gen cc tc cr tr 3 0 none
  let attempts := r.1
  let data := r.2.1
  let isComplete := r.2.2
  if isComplete then
    match data with
    | some (.obj fs) => .ok (setField (.obj fs) "_meta" (metaObj now attempts true))
    | _ => .error "unreachable: complete data is an object"
  else
    match data with
    | none => .error "TypeError: Cannot read properties of null (reading 'roleComparison')"
    | some (.obj fs) =>
        let d : Json := .obj fs
        let d1 := if truthyO (getField d "roleComparison") then d
          else setField d "roleComparison" (defaultRoleComparison cr tr)
        let d2 := if truthyO (getField d1 "salaryExpectationAnalysis") then d1
          else setField d1 "salaryExpectationAnalysis" defaultSalaryAnalysis
        .ok (setField d2 "_meta" (metaObj now attempts false))
    | some _ => .error "TypeError: cannot create property on a primitive value"

/-! ## `generateIndustryInsights`: the validation / backfill step

Lines 552–703 of `aiDashboard.js`: given the parsed (or fallback) data,
normalize `industryOverview`, force the ten declared array fields to
validated arrays, and default `expectedSalaryRange`.  The surrounding
Gemini call and `parseJSON` invocation are the already-modelled
components; this step is the subject of the claims about the function. -/

mutual

/-- JavaScript `String(x)` for a JSON value (arrays stringify as their
comma-joined elements, objects as `[object Object]`). -/
def jsToString : Json → String
  | .null => "null"
  | .bool true => "true"
  | .bool false => "false"
  | .num n => String.mk (serInt n)
  | .str s => String.mk s
  | .arr xs => String.intercalate "," (jsElemStrings xs)
  | .obj _ => "[object Object]"

/-- Element strings of an array under `Array.prototype.toString`
(`null` becomes the empty string). -/
def jsElemStrings : List Json → List String
  | [] => []
  | .null :: xs => "" :: jsElemStrings xs
  | x :: xs => jsToString x :: jsElemStrings xs

end

/-- `/\s+/g → ' '` (whitespace-run normalization). -/
def rWsRun (l : List Char) : Option (List Char × Nat) :=
  match l with
  | c :: r =>
      if isJsSpace c then
        let (sp, _) := munchWhile isJsSpace r
        some ([' '], 1 + sp.length)
      else none
  | _ => none

/-- JavaScript `String.prototype.trim` (ASCII whitespace). -/
def trimChars (l : List Char) : List Char :=
  ((l.dropWhile isJsSpace).reverse.dropWhile isJsSpace).reverse

/-- The `industryOverview` cleanup chain (`aiDashboard.js` lines
568–572): unescape `\n` and `\"`, collapse whitespace runs, trim. -/
def processOverview (s : List Char) : List Char :=
  trimChars (scanRepl rWsRun
    (scanRepl (matchLit ('\\' :: ['"']) ['"'])
      (scanRepl (matchLit ('\\' :: ['n']) ['\n']) s)))

/-- First truthy of two optional values (JavaScript `a || b`). -/
def jsOr (a b : Option Json) : Option Json :=
  if truthyO a then a else b

/-- The `quickInsights` entry filter (`aiDashboard.js` lines 603–607). -/
def quickInsightOk (item : Json) : Bool :=
  item.truthy && item.typeofObject
    && (truthyO (getField item "title") || truthyO (getField item "name"))
    && (truthyO (getField item "type") || truthyO (getField item "category"))

/-- The `marketDemand` entry filter (lines 612–616). -/
def marketDemandOk (item : Json) : Bool :=
  item.truthy && item.typeofObject && truthyO (getField item "skill")
    && numOrStrO (getField item "demandScore")

/-- One `roles` entry of a `topCompanies` company (lines 628–638):
strings pass through; other objects are stringified from their first
truthy `name`/`title`/`role` field or their JSON serialization; other
primitives are `String(…)`-converted. -/
def companyRoleToString (role : Json) : Json :=
  match role with
  | .str s => .str s
  | _ =>
      if role.truthy && role.typeofObject then
        match jsOr (jsOr (jsOr (getField role "name") (getField role "title"))
            (getField role "role")) (some (.str (stringify role))) with
        | some v => .str (jsToString v).data
        | none => .str (stringify role)
      else .str (jsToString role).data

/-- The per-company normalization of `topCompanies` (lines 622–641). -/
def fixCompany (company : Json) : Json :=
  match getField company "roles" with
  | some (.arr rs) => setField company "roles" (.arr (rs.map companyRoleToString))
  | _ => setField company "roles" (.arr [])

/-- The `rolesSalaries` entry filter of `citySalaryData` (lines
655–660). -/
def roleSalaryOk (role : Json) : Bool :=
  role.truthy && role.typeofObject && truthyO (getField role "role")
    && numOrStrO (getField role "minSalary")
    && numOrStrO (getField role "medianSalary")
    && numOrStrO (getField role "maxSalary")

/-- The per-city normalization of `citySalaryData` (lines 649–663). -/
def fixCity (city : Json) : Json :=
  match getField city "rolesSalaries" with
  | some (.arr rs) => setField city "rolesSalaries" (.arr (rs.filter roleSalaryOk))
  | _ => setField city "rolesSalaries" (.arr [])

/-- The `citySalaryData` entry filter (lines 646–648). -/
def cityOk (item : Json) : Bool :=
  item.truthy && item.typeofObject && truthyO (getField item "city")
    && numOrStrO (getField item "avgSalary")

/-- The `topCompanies` entry filter (line 621). -/
def companyOk (item : Json) : Bool :=
  item.truthy && item.typeofObject && truthyO (getField item "name")

/-- The `careerPathInsights` entry filter (lines 668–670). -/
def careerPathOk (item : Json) : Bool :=
  item.truthy && item.typeofObject && truthyO (getField item "title")
    && truthyO (getField item "description")

/-- The `emergingTrends` entry filter (lines 675–677). -/
def trendOk (item : Json) : Bool :=
  item.truthy && item.typeofObject && truthyO (getField item "name")
    && truthyO (getField item "description")

/-- The `recommendedCourses` entry filter (lines 682–684). -/
def courseOk (item : Json) : Bool :=
  item.truthy && item.typeofObject && truthyO (getField item "name")
    && truthyO (getField item "platform")

/-- The `skillBasedBoosts` entry filter (lines 689–692). -/
def boostOk (item : Json) : Bool :=
  item.truthy && item.typeofObject && truthyO (getField item "skill")
    && numOrStrO (getField item "salaryIncrease")

/-- The per-field transformation of the `switch` (lines 600–694); fields
with no `case` (`topSkills`, `nextActions`) are left as they are. -/
def transformField (field : String) (xs : List Json) : Option (List Json) :=
  if field = "quickInsights" then some (xs.filter quickInsightOk)
  else if field = "marketDemand" then some (xs.filter marketDemandOk)
  else if field = "topCompanies" then some ((xs.filter companyOk).map fixCompany)
  else if field = "citySalaryData" then some ((xs.filter cityOk).map fixCity)
  else if field = "careerPathInsights" then some (xs.filter careerPathOk)
  else if field = "emergingTrends" then some (xs.filter trendOk)
  else if field = "recommendedCourses" then some (xs.filter courseOk)
  else if field = "skillBasedBoosts" then some (xs.filter boostOk)
  else none

/-- One iteration of the `arrayFields.forEach` (lines 592–696): a missing
or non-array field is set to `[]`; an array field is run through its
`switch` case, a field with no case staying untouched. -/
def processArrayField (d : Json) (field : String) : Json :=
  match getField d field with
  | some (.arr xs) =>
      match transformField field xs with
      | some xs' => setField d field (.arr xs')
      | none => d
  | _ => setField d field (.arr [])

/-- The ten declared array fields, in source order (lines 586–590). -/
def arrayFields : List String :=
  ["marketDemand", "quickInsights", "topSkills", "citySalaryData",
   "skillBasedBoosts", "topCompanies", "recommendedCourses",
   "careerPathInsights", "emergingTrends", "nextActions"]

/-- The `expectedSalaryRange` default (line 700). -/
def defaultSalaryRange : Json :=
  .obj [("min".data, .num 80000), ("max".data, .num 120000),
        ("currency".data, jstr "USD")]

/-- The validation / backfill step of `generateIndustryInsights` (lines
552–703).  A falsy value hits the `if (!data)` throw; a truthy primitive
would make the strict-mode property writes throw a `TypeError` (for an
array, JavaScript would attach named properties invisible to the `Json`
data model; no verified path reaches that case). -/
def sanitizeIndustryData (data : Json) : Except String Json :=
  if !data.truthy then .error "Empty data object after parsing"
  else
    match data with
    | .obj _ =>
        let d1 :=
          match getField data "industryOverview" with
          | some v =>
              if v.truthy then
                let s0 : List Char :=
                  match v with
                  | .str s => s
                  | _ => (jsToString v).data
                setField data "industryOverview" (.str (processOverview s0))
              else setField data "industryOverview"
                (jstr "Industry overview information not available.")
          | none => setField data "industryOverview"
              (jstr "Industry overview information not available.")
        let d2 := arrayFields.foldl processArrayField d1
        let d3 :=
          match getField d2 "expectedSalaryRange" with
          | some v =>
              if v.truthy && v.typeofObject then d2
              else setField d2 "expectedSalaryRange" defaultSalaryRange
          | none => setField d2 "expectedSalaryRange" defaultSalaryRange
        .ok d3
    | _ => .error "TypeError: cannot create property on a primitive value"

/-! ## Shared material for the claim theorems -/

/-- A `JSON5.parse` oracle that always throws, as the real library does on
the concrete inputs used below (none of them is valid JSON5). -/
def oracleJson5Err : String → Except String Json := fun _ => .error "SyntaxError"

/-- A `jsonrepair` oracle that always throws, as the real library does on
the concrete inputs used below. -/
def oracleRepairErr : String → Except String String :=
  fun _ => .error "JSONRepairError"

/-- Read a field out of a successful result (`none` on error or missing
field): a convenience for stating properties of returned objects. -/
def okField (e : Except String Json) (k : String) : Option Json :=
  match e with
  | .ok d => getField d k
  | .error _ => none

/-- When standard `JSON.parse` succeeds on the cleaned text, `parseJSON`
returns that result and never consults the later strategies or the
fallback. -/
theorem parseJSON_first_strategy (json5 : String → Except String Json)
    (jsonrepair : String → Except String String) (text : String)
    (fb : Json) (dt : String) (v : Json)
    (h : jsonParse (cleanText dt text.data) = .ok v) :
    parseJSON json5 jsonrepair text fb dt = .ok v := by
  simp only [parseJSON, parseJSONCore, h]

/-! ## Claim C9 -/

/-- C9: `parseJSON` applied to the exact text `{name: 'Engineer', salary:
1000}` (unquoted keys, single-quoted string value) succeeds — with the
first strategy, so the result holds for every behaviour of the external
libraries — and returns the object `{"name":"Engineer","salary":1000}`. -/
theorem c9_unquoted_single_quoted_recovery
    (json5 : String → Except String Json) (jsonrepair : String → Except String String) :
    parseJSON json5 jsonrepair "\x7bname: 'Engineer', salary: 1000\x7d"
      = .ok (.obj [("name".data, jstr "Engineer"), ("salary".data, .num 1000)]) :=
  parseJSON_first_strategy _ _ _ _ _ _ (by decide)

/-! ## Claim C1 -/

/-- C1, refuted: on the valid JSON text `{"a":{"b":{"c":{"d":0}}},"e":1}`
— whose `JSON.parse` value keeps `"e"` at top level — the `/}+}/g`
rewrite of `cleanText` collapses the run of three closing braces, the
balancer then appends a brace at the end, and `parseJSON` succeeds with a
*different* object, in which `"e"` sits inside `"a"`.  The oracle
arguments are irrelevant: the first strategy succeeds. -/
theorem c1_counterexample :
    jsonParse ("\x7b\"a\":\x7b\"b\":\x7b\"c\":\x7b\"d\":0\x7d\x7d\x7d,\"e\":1\x7d").data
      = .ok (.obj [("a".data, .obj [("b".data, .obj [("c".data,
          .obj [("d".data, .num 0)])])]), ("e".data, .num 1)])
    ∧ parseJSON oracleJson5Err oracleRepairErr "\x7b\"a\":\x7b\"b\":\x7b\"c\":\x7b\"d\":0\x7d\x7d\x7d,\"e\":1\x7d"
      = .ok (.obj [("a".data, .obj [("b".data, .obj [("c".data,
          .obj [("d".data, .num 0)])]), ("e".data, .num 1)])])
    ∧ (.obj [("a".data, .obj [("b".data, .obj [("c".data,
          .obj [("d".data, .num 0)])]), ("e".data, .num 1)])] : Json)
      ≠ .obj [("a".data, .obj [("b".data, .obj [("c".data,
          .obj [("d".data, .num 0)])])]), ("e".data, .num 1)] := by
  refine ⟨by decide, ?_, by decide⟩
  exact parseJSON_first_strategy _ _ _ _ _ _ (by decide)

/-- C1, amended: for a valid JSON text that the cleaning rewrites leave
unchanged, `parseJSON` (default options) succeeds and returns exactly the
`JSON.parse` result, whatever the external libraries and the fallback
are.  In general the cleaning rewrites *can* change the parsed meaning of
valid JSON input (see the counterexample). -/
theorem c1_amended (json5 : String → Except String Json)
    (jsonrepair : String → Except String String) (text : String) (v : Json)
    (hclean : cleanText "general" text.data = text.data)
    (hparse : jsonParse text.data = .ok v) :
    parseJSON json5 jsonrepair text = .ok v :=
  parseJSON_first_strategy _ _ _ _ _ _ (by rw [hclean]; exact hparse)

/-- Witness for `c1_amended` at the input `{"a": 1}`. -/
theorem c1_amended_witness :
    parseJSON oracleJson5Err oracleRepairErr "\x7b\"a\": 1\x7d"
      = .ok (.obj [("a".data, .num 1)]) :=
  c1_amended oracleJson5Err oracleRepairErr _ _ (by decide) (by decide)

/-! ## Claim C7 -/

theorem replicate_space_isJsSpace (n : Nat) :
    ∀ c ∈ List.replicate n ' ', isJsSpace c = true := by
  intro c hc
  rw [List.eq_of_mem_replicate hc]
  decide

theorem munchWhile_replicate_space (n : Nat) (c : Char) (t : List Char)
    (hc : isJsSpace c = false) :
    munchWhile isJsSpace (List.replicate n ' ' ++ c :: t) = (List.replicate n ' ', c :: t) := by
  refine munchWhile_append _ _ _ (replicate_space_isJsSpace n) ?_
  intro r rs h
  injection h with h1 _
  exact h1 ▸ hc

theorem scanRepl_braceBrace_ws (n : Nat) :
    scanRepl rBraceBrace ('}' :: (List.replicate n ' ' ++ ['{'])) = ['}', ',', '{'] := by
  have hm : rBraceBrace ('}' :: (List.replicate n ' ' ++ ['{']))
      = some (['}', ',', '{'], 1 + n + 1) := by
    simp only [rBraceBrace, munchWhile_replicate_space n '{' [] (by decide)]
    simp
  have hlen : ('}' :: (List.replicate n ' ' ++ ['{'])).length = n + 2 := by simp
  have hdrop : (List.replicate n ' ' ++ ['{']).drop (1 + n + 1 - 1) = [] := by
    apply List.drop_eq_nil_of_le
    simp
    omega
  rw [scanRepl, hlen]
  rw [show (n + 2) = (n + 1) + 1 from rfl, scanReplF, hm]
  show ['}', ',', '{'] ++ scanReplF rBraceBrace (n + 1)
    ((List.replicate n ' ' ++ ['{']).drop (1 + n + 1 - 1)) = ['}', ',', '{']
  rw [hdrop]
  rw [show scanReplF rBraceBrace (n + 1) [] = [] from by rw [scanReplF]]
  rfl

theorem scanRepl_bracketBracket_ws (n : Nat) :
    scanRepl rBracketBracket (']' :: (List.replicate n ' ' ++ ['['])) = [']', ','] := by
  have hm : rBracketBracket (']' :: (List.replicate n ' ' ++ ['[']))
      = some ([']', ','], 1 + n + 1) := by
    simp only [rBracketBracket, munchWhile_replicate_space n '[' [] (by decide)]
    simp
  have hlen : (']' :: (List.replicate n ' ' ++ ['['])).length = n + 2 := by simp
  have hdrop : (List.replicate n ' ' ++ ['[']).drop (1 + n + 1 - 1) = [] := by
    apply List.drop_eq_nil_of_le
    simp
    omega
  rw [scanRepl, hlen]
  rw [show (n + 2) = (n + 1) + 1 from rfl, scanReplF, hm]
  show [']', ','] ++ scanReplF rBracketBracket (n + 1)
    ((List.replicate n ' ' ++ ['[']).drop (1 + n + 1 - 1)) = [']', ',']
  rw [hdrop]
  rw [show scanReplF rBracketBracket (n + 1) [] = [] from by rw [scanReplF]]
  rfl

/-- C7, refuted: the syntax-rewrite chain of `cleanText` maps the
adjacent pair `][` to `],` — the comma is inserted but the opening
bracket is *dropped* (rule `/]\s*\[/g → '],'`), so the output is not the
claimed `],[`. -/
theorem c7_counterexample :
    fixSyntaxIssues ("[1][2]").data = ("[1],2]").data
    ∧ fixSyntaxIssues ("[1][2]").data ≠ ("[1],[2]").data := by
  constructor
  · decide
  · decide

/-- C7, amended: the `/}\s*{/g` rewrite does turn every
whitespace-separated `}{` pair into `},{`, preserving both braces; but
the `/]\s*\[/g` rewrite turns a whitespace-separated `][` pair into `],`,
dropping the opening bracket.  On full texts the chain accordingly maps
`{"a":1}{"b":2}` to `{"a":1},{"b":2}` and `[1] [2]` to `[1],2]`. -/
theorem c7_amended (n : Nat) :
    scanRepl rBraceBrace ('}' :: (List.replicate n ' ' ++ ['{'])) = ['}', ',', '{']
    ∧ scanRepl rBracketBracket (']' :: (List.replicate n ' ' ++ ['['])) = [']', ',']
    ∧ fixSyntaxIssues ("\x7b\"a\":1\x7d\x7b\"b\":2\x7d").data = ("\x7b\"a\":1\x7d,\x7b\"b\":2\x7d").data
    ∧ fixSyntaxIssues ("[1] [2]").data = ("[1],2]").data :=
  ⟨scanRepl_braceBrace_ws n, scanRepl_bracketBracket_ws n, by decide, by decide⟩

/-! ## Claim C3 -/

/-- C3, refuted: `parseJSON` decides whether to use the fallback with
`Object.keys(fallbackData).length > 0`, so a caller-supplied *empty*
fallback object is indistinguishable from no fallback: on the empty
input — on which every strategy fails, including the real `JSON5` and
`jsonrepair`, both of which throw on `""` — the explicitly supplied `{}`
is not returned and the error is thrown instead. -/
theorem c3_counterexample :
    parseJSON oracleJson5Err oracleRepairErr "" (Json.obj []) "general"
      = .error ("All JSON parsing methods failed: "
        ++ "JSON.parse: Unexpected end of JSON input; JSON5: SyntaxError; "
        ++ "jsonrepair: JSONRepairError; truncation-fixing: Unexpected end of JSON input")
    ∧ parseJSON oracleJson5Err oracleRepairErr "" (Json.obj []) "general"
      ≠ .ok (Json.obj []) := by
  constructor
  · decide
  · decide

/-- C3, amended: when every strategy fails, `parseJSON` returns the
fallback unchanged exactly when the fallback has at least one own key;
with no fallback *or an explicitly supplied empty object* it instead
throws the error carrying the concatenated per-strategy messages. -/
theorem c3_amended (json5 : String → Except String Json)
    (jsonrepair : String → Except String String) (text : String) (dt : String)
    (fb : Json) (atts : List (String × String))
    (hfail : parseJSONCore json5 jsonrepair text.data dt = .error atts) :
    (0 < numKeys fb → parseJSON json5 jsonrepair text fb dt = .ok fb)
    ∧ (numKeys fb = 0 → parseJSON json5 jsonrepair text fb dt = .error (failMsg atts)) := by
  constructor
  · intro hk
    simp [parseJSON, hfail, hk]
  · intro hk
    simp [parseJSON, hfail, hk]

/-- Witness for `c3_amended`: on the empty input with the failing
oracles, a one-key fallback is returned unchanged. -/
theorem c3_amended_witness :
    parseJSON oracleJson5Err oracleRepairErr "" (Json.obj [("a".data, Json.num 1)]) "general"
      = .ok (Json.obj [("a".data, Json.num 1)]) :=
  (c3_amended oracleJson5Err oracleRepairErr "" "general"
    (Json.obj [("a".data, Json.num 1)])
    [("JSON.parse", "Unexpected end of JSON input"), ("JSON5", "SyntaxError"),
     ("jsonrepair", "JSONRepairError"),
     ("truncation-fixing", "Unexpected end of JSON input")]
    (by decide)).1 (by decide)

/-! ## Claim C8 -/

/-- C8, refuted: recovery is not idempotent under re-serialization.  On
`{"a":{"b":{"c":{"d":0}} },"e":1}` — which `cleanText` leaves unchanged,
the inner space breaking the brace run — `parseJSON` succeeds with the
faithful value `v`; but `JSON.stringify v` is the compact text whose
`}}}` run the cleaning then collapses, so re-parsing returns an object
with `"e"` moved inside `"a"`, not deep-equal to `v`. -/
theorem c8_counterexample :
    parseJSON oracleJson5Err oracleRepairErr "\x7b\"a\":\x7b\"b\":\x7b\"c\":\x7b\"d\":0\x7d\x7d \x7d,\"e\":1\x7d"
      = .ok (.obj [("a".data, .obj [("b".data, .obj [("c".data,
          .obj [("d".data, .num 0)])])]), ("e".data, .num 1)])
    ∧ stringify (.obj [("a".data, .obj [("b".data, .obj [("c".data,
          .obj [("d".data, .num 0)])])]), ("e".data, .num 1)])
      = ("\x7b\"a\":\x7b\"b\":\x7b\"c\":\x7b\"d\":0\x7d\x7d\x7d,\"e\":1\x7d").data
    ∧ parseJSON oracleJson5Err oracleRepairErr "\x7b\"a\":\x7b\"b\":\x7b\"c\":\x7b\"d\":0\x7d\x7d\x7d,\"e\":1\x7d"
      = .ok (.obj [("a".data, .obj [("b".data, .obj [("c".data,
          .obj [("d".data, .num 0)])]), ("e".data, .num 1)])])
    ∧ (.obj [("a".data, .obj [("b".data, .obj [("c".data,
          .obj [("d".data, .num 0)])]), ("e".data, .num 1)])] : Json)
      ≠ .obj [("a".data, .obj [("b".data, .obj [("c".data,
          .obj [("d".data, .num 0)])])]), ("e".data, .num 1)] := by
  refine ⟨parseJSON_first_strategy _ _ _ _ _ _ (by decide), ?_,
    parseJSON_first_strategy _ _ _ _ _ _ (by decide), by decide⟩
  simp [stringify, ser, serFields, serElems, serString, serInt, serNat, digitsOf,
    escapeChar]
  decide

/-- C8, amended: recovery *is* idempotent under re-serialization
provided the serialized output is itself left unchanged by the cleaning
rewrites (and the recovered value needs no string escaping and has no
duplicate keys): then re-parsing `JSON.stringify v` succeeds on the first
strategy and returns `v` exactly. -/
theorem c8_amended (json5a json5b : String → Except String Json)
    (repaira repairb : String → Except String String) (text : String) (v : Json)
    (_hfirst : parseJSON json5a repaira text = .ok v)
    (htame : tameB v = true)
    (hclean : cleanText "general" (stringify v) = stringify v) :
    parseJSON json5b repairb (String.mk (stringify v)) = .ok v := by
  apply parseJSON_first_strategy
  show jsonParse (cleanText "general" (stringify v)) = .ok v
  rw [hclean]
  exact jsonParse_stringify v htame

/-- Witness for `c8_amended` at `{"a": 1}`. -/
theorem c8_amended_witness :
    parseJSON oracleJson5Err oracleRepairErr (String.mk (stringify (.obj [("a".data, .num 1)])))
      = .ok (.obj [("a".data, .num 1)]) := by
  have hs : stringify (Json.obj [("a".data, Json.num 1)]) = ("\x7b\"a\":1\x7d").data := by
    simp [stringify, ser, serFields, serString, serInt, serNat, digitsOf, escapeChar]
    decide
  exact c8_amended oracleJson5Err oracleJson5Err oracleRepairErr oracleRepairErr
    "\x7b\"a\": 1\x7d" (Json.obj [("a".data, Json.num 1)])
    (parseJSON_first_strategy _ _ _ _ _ _ (by decide))
    (by simp [tameB, tameFieldsB, tameStr, nodupKeys]; decide)
    (by rw [hs]; decide)

/-! ## Claim C10 -/

/-- The write-effect C10 ascribes to one `topCities` entry: an object
entry whose `rolesSalaries` is not an array gets an empty array assigned
to that field in place; every other entry is untouched. -/
def rolesSalariesBackfillCity (city : Json) : Json :=
  if city.truthy && city.typeofObject && !(isArrO (getField city "rolesSalaries")) then
    setField city "rolesSalaries" (.arr [])
  else city

/-- The write-effect on one country object: only a non-empty `topCities`
array is rewritten, entry-wise. -/
def rolesSalariesBackfillCountry (country : Json) : Json :=
  match getField country "topCities" with
  | some (.arr cities) =>
      if cities.isEmpty then country
      else setField country "topCities" (.arr (cities.map rolesSalariesBackfillCity))
  | _ => country

/-- The whole write-effect C10 ascribes to `validateComparisonData`: the
`rolesSalaries` backfill under both countries of a truthy
`countrySalaryComparison`, and nothing else. -/
def rolesSalariesBackfill (data : Json) : Json :=
  if !data.truthy then data
  else
    match getField data "countrySalaryComparison" with
    | some csc =>
        if !csc.truthy then data
        else
          let csc₁ :=
            match getField csc "currentCountry" with
            | some cur =>
                if cur.truthy then
                  setField csc "currentCountry" (rolesSalariesBackfillCountry cur)
                else csc
            | none => csc
          let csc₂ :=
            match getField csc₁ "targetCountry" with
            | some tgt =>
                if tgt.truthy then
                  setField csc₁ "targetCountry" (rolesSalariesBackfillCountry tgt)
                else csc₁
            | none => csc₁
          setField data "countrySalaryComparison" csc₂
    | none => data

theorem validateCities_fst (label : String) :
    ∀ (cities : List Json) (i : Nat),
      (validateCities label cities i).1 = cities.map rolesSalariesBackfillCity := by
  intro cities
  induction cities with
  | nil => intro i; rfl
  | cons city rest ih =>
      intro i
      simp only [validateCities, List.map_cons]
      rw [ih (i + 1)]
      cases ht : city.truthy with
      | false =>
          have hb : rolesSalariesBackfillCity city = city := by
            rw [rolesSalariesBackfillCity]
            simp [ht]
          simp [ht, hb]
      | true =>
          cases hobj : city.typeofObject with
          | false =>
              have hb : rolesSalariesBackfillCity city = city := by
                rw [rolesSalariesBackfillCity]
                simp [hobj]
              simp [ht, hobj, hb]
          | true =>
              cases harr : isArrO (getField city "rolesSalaries") with
              | true =>
                  have hb : rolesSalariesBackfillCity city = city := by
                    rw [rolesSalariesBackfillCity]
                    simp [harr]
                  simp [ht, hobj, harr, hb]
              | false =>
                  have hb : rolesSalariesBackfillCity city
                      = setField city "rolesSalaries" (.arr []) := by
                    rw [rolesSalariesBackfillCity]
                    simp [ht, hobj, harr]
                  simp [ht, hobj, harr, hb]

theorem validateCountry_fst (country : Json) (label expectedName : String) :
    (validateCountry country label expectedName).1
      = rolesSalariesBackfillCountry country := by
  rw [validateCountry, rolesSalariesBackfillCountry]
  cases h : getField country "topCities" with
  | none => rfl
  | some v =>
      cases v with
      | arr cities =>
          cases he : cities.isEmpty with
          | true => simp [he]
          | false => simp [he, validateCities_fst label cities 0]
      | null => rfl
      | bool b => rfl
      | num n => rfl
      | str s => rfl
      | obj fs => rfl

/-- The returned data of `validateComparisonData` is exactly the
`rolesSalaries` backfill of its input, for any expected names. -/
theorem validateComparisonData_fst (data : Json)
    (currentCountry targetCountry currentRole targetRole : String) :
    (validateComparisonData data currentCountry targetCountry
      currentRole targetRole).1 = rolesSalariesBackfill data := by
  rw [validateComparisonData, rolesSalariesBackfill]
  cases hd : data.truthy with
  | false => simp [hd]
  | true =>
      simp only [hd, Bool.not_true, Bool.false_eq_true, if_false]
      cases hcsc : getField data "countrySalaryComparison" with
      | none => simp
      | some csc =>
          cases ht : csc.truthy with
          | false => simp [ht]
          | true =>
              simp only [ht, Bool.not_true, Bool.false_eq_true, if_false]
              cases hcur : getField csc "currentCountry" with
              | none =>
                  cases htgt : getField csc "targetCountry" with
                  | none => simp
                  | some tgt =>
                      cases htt : tgt.truthy with
                      | true => simp [htt, validateCountry_fst]
                      | false => simp [htt]
              | some cur =>
                  cases hct : cur.truthy with
                  | true =>
                      simp only [hct, if_true, validateCountry_fst]
                      cases htgt : getField (setField csc "currentCountry"
                          (rolesSalariesBackfillCountry cur)) "targetCountry" with
                      | none => simp
                      | some tgt =>
                          cases htt : tgt.truthy with
                          | true => simp [htt, validateCountry_fst]
                          | false => simp [htt]
                  | false =>
                      simp only [hct, Bool.false_eq_true, if_false]
                      cases htgt : getField csc "targetCountry" with
                      | none => simp
                      | some tgt =>
                          cases htt : tgt.truthy with
                          | true => simp [htt, validateCountry_fst]
                          | false => simp [htt]

/-- C10, confirmed: `validateComparisonData` mutates the data it
validates — its returned data is exactly the input with the
`rolesSalaries` backfill applied to both countries' `topCities` entries
(an empty array assigned in place of a non-array `rolesSalaries` on each
object entry), every other part of the object left unchanged; so
validation is not a read-only check. -/
theorem c10_validate_mutates (data : Json)
    (currentCountry targetCountry currentRole targetRole : String) :
    (validateComparisonData data currentCountry targetCountry
      currentRole targetRole).1 = rolesSalariesBackfill data :=
  validateComparisonData_fst data currentCountry targetCountry
    currentRole targetRole

/-! ## The sanitize pipeline: field-tracking lemmas (claims C5, C6) -/

/-- Is the value a JavaScript object proper (not an array)? -/
def isObjB : Json → Bool
  | .obj _ => true
  | _ => false

theorem isObjB_setField (d : Json) (k : String) (v : Json) :
    isObjB (setField d k v) = isObjB d := by
  cases d <;> rfl

theorem getField_setField_same_of_obj (d : Json) (k : String) (v : Json)
    (hobj : isObjB d = true) : getField (setField d k v) k = some v := by
  cases d with
  | obj fs => exact getField_setField_same fs k v
  | null => simp [isObjB] at hobj
  | bool b => simp [isObjB] at hobj
  | num n => simp [isObjB] at hobj
  | str s => simp [isObjB] at hobj
  | arr xs => simp [isObjB] at hobj

theorem getField_setField_ne_any (d : Json) (k k' : String) (v : Json)
    (hne : k ≠ k') : getField (setField d k v) k' = getField d k' := by
  cases d with
  | obj fs => exact getField_setField_ne fs k k' v hne
  | null => rfl
  | bool b => rfl
  | num n => rfl
  | str s => rfl
  | arr xs => rfl

theorem isObjB_processArrayField (d : Json) (f : String) :
    isObjB (processArrayField d f) = isObjB d := by
  cases hf : getField d f with
  | none => simp only [processArrayField, hf, isObjB_setField]
  | some v =>
      cases v with
      | arr xs =>
          simp only [processArrayField, hf]
          cases transformField f xs with
          | none => rfl
          | some xs' => rw [isObjB_setField]
      | null => simp only [processArrayField, hf, isObjB_setField]
      | bool b => simp only [processArrayField, hf, isObjB_setField]
      | num n => simp only [processArrayField, hf, isObjB_setField]
      | str s => simp only [processArrayField, hf, isObjB_setField]
      | obj gs => simp only [processArrayField, hf, isObjB_setField]

theorem getField_processArrayField_ne (d : Json) (f k : String) (hne : f ≠ k) :
    getField (processArrayField d f) k = getField d k := by
  cases hf : getField d f with
  | none =>
      simp only [processArrayField, hf]
      exact getField_setField_ne_any d f k _ hne
  | some v =>
      cases v with
      | arr xs =>
          simp only [processArrayField, hf]
          cases transformField f xs with
          | none => rfl
          | some xs' => exact getField_setField_ne_any d f k _ hne
      | null =>
          simp only [processArrayField, hf]
          exact getField_setField_ne_any d f k _ hne
      | bool b =>
          simp only [processArrayField, hf]
          exact getField_setField_ne_any d f k _ hne
      | num n =>
          simp only [processArrayField, hf]
          exact getField_setField_ne_any d f k _ hne
      | str s =>
          simp only [processArrayField, hf]
          exact getField_setField_ne_any d f k _ hne
      | obj gs =>
          simp only [processArrayField, hf]
          exact getField_setField_ne_any d f k _ hne

theorem getField_processArrayField_self (d : Json) (f : String)
    (hobj : isObjB d = true) :
    ∃ xs, getField (processArrayField d f) f = some (.arr xs) := by
  cases hf : getField d f with
  | none =>
      simp only [processArrayField, hf]
      exact ⟨[], getField_setField_same_of_obj d f _ hobj⟩
  | some v =>
      cases v with
      | arr xs =>
          simp only [processArrayField, hf]
          cases ht : transformField f xs with
          | none => exact ⟨xs, hf⟩
          | some xs' => exact ⟨xs', getField_setField_same_of_obj d f _ hobj⟩
      | null =>
          simp only [processArrayField, hf]
          exact ⟨[], getField_setField_same_of_obj d f _ hobj⟩
      | bool b =>
          simp only [processArrayField, hf]
          exact ⟨[], getField_setField_same_of_obj d f _ hobj⟩
      | num n =>
          simp only [processArrayField, hf]
          exact ⟨[], getField_setField_same_of_obj d f _ hobj⟩
      | str s =>
          simp only [processArrayField, hf]
          exact ⟨[], getField_setField_same_of_obj d f _ hobj⟩
      | obj gs =>
          simp only [processArrayField, hf]
          exact ⟨[], getField_setField_same_of_obj d f _ hobj⟩

theorem isObjB_foldl_processArrayField (flds : List String) :
    ∀ d : Json, isObjB (flds.foldl processArrayField d) = isObjB d := by
  induction flds with
  | nil => intro d; rfl
  | cons f fs ih =>
      intro d
      rw [List.foldl_cons, ih, isObjB_processArrayField]

theorem getField_foldl_processArrayField_ne (flds : List String) :
    ∀ (d : Json) (k : String), (∀ f ∈ flds, f ≠ k) →
      getField (flds.foldl processArrayField d) k = getField d k := by
  induction flds with
  | nil => intro d k _; rfl
  | cons f fs ih =>
      intro d k hnot
      rw [List.foldl_cons, ih _ _ (fun g hg => hnot g (List.mem_cons_of_mem f hg)),
        getField_processArrayField_ne d f k (hnot f (List.mem_cons_self f fs))]

theorem getField_foldl_fields_arr (flds : List String) :
    ∀ (d : Json), isObjB d = true → flds.Nodup →
      ∀ f ∈ flds, ∃ xs, getField (flds.foldl processArrayField d) f = some (.arr xs) := by
  induction flds with
  | nil => intro d _ _ f hf; cases hf
  | cons g gs ih =>
      intro d hobj hnd f hf
      rw [List.nodup_cons] at hnd
      rcases List.mem_cons.mp hf with rfl | hmem
      · obtain ⟨xs, hxs⟩ := getField_processArrayField_self d f hobj
        refine ⟨xs, ?_⟩
        rw [List.foldl_cons,
          getField_foldl_processArrayField_ne gs (processArrayField d f) f
            (fun g hg => fun he => hnd.1 (he ▸ hg))]
        exact hxs
      · rw [List.foldl_cons]
        exact ih (processArrayField d g)
          (by rw [isObjB_processArrayField]; exact hobj) hnd.2 f hmem

/-- Stage 1 of `sanitizeIndustryData` (the `d1` binding): the
`industryOverview` fixup of `aiDashboard.js` lines 566–583. -/
def overviewStep (data : Json) : Json :=
  match getField data "industryOverview" with
  | some v =>
      if v.truthy then
        let s0 : List Char :=
          match v with
          | .str s => s
          | _ => (jsToString v).data
        setField data "industryOverview" (.str (processOverview s0))
      else setField data "industryOverview"
        (jstr "Industry overview information not available.")
  | none => setField data "industryOverview"
      (jstr "Industry overview information not available.")

/-- Stage 3 of `sanitizeIndustryData` (the `d3` binding): the
`expectedSalaryRange` default of lines 698–703. -/
def esrStep (d2 : Json) : Json :=
  match getField d2 "expectedSalaryRange" with
  | some v =>
      if v.truthy && v.typeofObject then d2
      else setField d2 "expectedSalaryRange" defaultSalaryRange
  | none => setField d2 "expectedSalaryRange" defaultSalaryRange

/-- On an object, `sanitizeIndustryData` is exactly its three stages. -/
theorem sanitizeIndustryData_stages (fs : List (List Char × Json)) :
    sanitizeIndustryData (.obj fs)
      = .ok (esrStep (arrayFields.foldl processArrayField (overviewStep (.obj fs)))) :=
  rfl

/-- The `industryOverview` step always writes a string. -/
theorem overviewStep_shape (data : Json) :
    ∃ s : List Char, overviewStep data = setField data "industryOverview" (.str s) := by
  rw [overviewStep]
  cases h : getField data "industryOverview" with
  | none => exact ⟨_, rfl⟩
  | some v =>
      cases ht : v.truthy with
      | false => simp only [ht, Bool.false_eq_true, if_false]; exact ⟨_, rfl⟩
      | true => simp only [ht, if_true]; exact ⟨_, rfl⟩

theorem getField_overviewStep_ne (data : Json) (k : String)
    (hne : "industryOverview" ≠ k) :
    getField (overviewStep data) k = getField data k := by
  obtain ⟨s, hs⟩ := overviewStep_shape data
  rw [hs, getField_setField_ne_any _ _ _ _ hne]

theorem isObjB_overviewStep (data : Json) :
    isObjB (overviewStep data) = isObjB data := by
  obtain ⟨s, hs⟩ := overviewStep_shape data
  rw [hs, isObjB_setField]

theorem getField_esrStep_ne (d : Json) (k : String)
    (hne : "expectedSalaryRange" ≠ k) :
    getField (esrStep d) k = getField d k := by
  rw [esrStep]
  cases h : getField d "expectedSalaryRange" with
  | none => exact getField_setField_ne_any _ _ _ _ hne
  | some v =>
      cases hc : (v.truthy && v.typeofObject) with
      | true => simp only [hc, if_true]
      | false =>
          simp only [hc, Bool.false_eq_true, if_false]
          exact getField_setField_ne_any _ _ _ _ hne

theorem getField_esrStep_esr (d : Json) (hobj : isObjB d = true) :
    ∃ v, getField (esrStep d) "expectedSalaryRange" = some v
      ∧ v.truthy = true ∧ v.typeofObject = true := by
  rw [esrStep]
  cases h : getField d "expectedSalaryRange" with
  | none =>
      exact ⟨defaultSalaryRange, getField_setField_same_of_obj d _ _ hobj, rfl, rfl⟩
  | some v =>
      cases hc : (v.truthy && v.typeofObject) with
      | true =>
          simp only [hc, if_true]
          rw [Bool.and_eq_true] at hc
          exact ⟨v, h, hc.1, hc.2⟩
      | false =>
          simp only [hc, Bool.false_eq_true, if_false]
          exact ⟨defaultSalaryRange, getField_setField_same_of_obj d _ _ hobj, rfl, rfl⟩

/-! ## Claim C6 -/

/-- The entry condition C6 states, following the specification's words: an
object entry carrying a `role` field (present, of whatever value) whose
three salary figures are each a number or a string. -/
def specRoleSalaryOk (role : Json) : Bool :=
  isObjB role && (getField role "role").isSome
    && numOrStrO (getField role "minSalary")
    && numOrStrO (getField role "medianSalary")
    && numOrStrO (getField role "maxSalary")

/-- A `rolesSalaries` entry with the `role` field present but empty: it
satisfies the specification's condition but not the source's (which
requires a *truthy* `role`). -/
def c6role : Json :=
  .obj [("role".data, .str []), ("minSalary".data, .num 1),
        ("medianSalary".data, .num 1), ("maxSalary".data, .num 1)]

/-- A parsed payload whose single city carries only `c6role`. -/
def c6input : Json :=
  .obj [("citySalaryData".data,
    .arr [.obj [("city".data, jstr "X"), ("avgSalary".data, .num 1),
      ("rolesSalaries".data, .arr [c6role])]])]

/-- C6, refuted: the entry `{role: "", minSalary: 1, medianSalary: 1,
maxSalary: 1}` is an object with a `role` field and number-typed salary
figures — it satisfies the claim's condition — yet the validator drops
it, because the source additionally requires `role.role` to be truthy
(`role &&` in the filter), which the empty string is not. -/
theorem c6_counterexample :
    specRoleSalaryOk c6role = true
    ∧ okField (sanitizeIndustryData c6input) "citySalaryData"
      = some (.arr [.obj [("city".data, jstr "X"), ("avgSalary".data, .num 1),
          ("rolesSalaries".data, .arr [])]]) := by
  constructor
  · decide
  · decide

/-- C6, amended: for every parsed object, the sanitized `citySalaryData`
is the input array filtered by the source's city condition and rewritten
city-wise, where a surviving city's `rolesSalaries` array keeps exactly
those entries that are objects with a *truthy* `role` field (an entry
whose `role` is present but falsy — empty string, `0`, `false`, `null` —
is dropped) and with `minSalary`, `medianSalary` and `maxSalary` each a
number or a string, in their original order; an entry failing the
condition is dropped entirely while its complete siblings survive
intact. -/
theorem c6_amended (fs : List (List Char × Json)) (cs : List Json)
    (h : getField (.obj fs) "citySalaryData" = some (.arr cs)) :
    ∃ d, sanitizeIndustryData (.obj fs) = .ok d
    ∧ getField d "citySalaryData" = some (.arr ((cs.filter cityOk).map fixCity))
    ∧ ∀ city rs, getField city "rolesSalaries" = some (.arr rs) →
        getField (fixCity city) "rolesSalaries"
          = match city with
            | .obj _ => some (.arr (rs.filter roleSalaryOk))
            | _ => getField city "rolesSalaries" := by
  refine ⟨_, sanitizeIndustryData_stages fs, ?_, ?_⟩
  · have h1 : getField (overviewStep (.obj fs)) "citySalaryData"
        = some (.arr cs) := by
      rw [getField_overviewStep_ne _ _ (by decide)]
      exact h
    have hobj1 : isObjB (overviewStep (.obj fs)) = true := by
      rw [isObjB_overviewStep]
      rfl
    have h2 : getField (arrayFields.foldl processArrayField (overviewStep (.obj fs)))
        "citySalaryData" = some (.arr ((cs.filter cityOk).map fixCity)) := by
      rw [show arrayFields = ["marketDemand", "quickInsights", "topSkills"]
          ++ "citySalaryData" :: ["skillBasedBoosts", "topCompanies",
            "recommendedCourses", "careerPathInsights", "emergingTrends",
            "nextActions"] from rfl]
      rw [List.foldl_append, List.foldl_cons]
      have hpre3 : getField (List.foldl processArrayField (overviewStep (.obj fs))
          ["marketDemand", "quickInsights", "topSkills"]) "citySalaryData"
          = some (.arr cs) := by
        rw [getField_foldl_processArrayField_ne _ _ _ (by decide)]
        exact h1
      have hobjpre : isObjB (List.foldl processArrayField (overviewStep (.obj fs))
          ["marketDemand", "quickInsights", "topSkills"]) = true := by
        rw [isObjB_foldl_processArrayField]
        exact hobj1
      rw [getField_foldl_processArrayField_ne _ _ _ (by decide)]
      simp only [processArrayField, hpre3,
        show transformField "citySalaryData" cs
          = some ((cs.filter cityOk).map fixCity) from rfl]
      exact getField_setField_same_of_obj _ _ _ hobjpre
    rw [getField_esrStep_ne _ _ (by decide)]
    exact h2
  · intro city rs hrs
    cases city with
    | obj gs =>
        rw [fixCity, hrs]
        exact getField_setField_same gs _ _
    | null => rw [fixCity]; cases hrs
    | bool b => rw [fixCity]; cases hrs
    | num n => rw [fixCity]; cases hrs
    | str s => rw [fixCity]; cases hrs
    | arr xs => rw [fixCity]; cases hrs

/-- Witness for `c6_amended`: a two-entry `rolesSalaries` array where one
entry misses `maxSalary` and its complete sibling survives alone. -/
theorem c6_amended_witness :
    okField (sanitizeIndustryData (.obj [("citySalaryData".data,
        .arr [.obj [("city".data, jstr "X"), ("avgSalary".data, .num 1),
          ("rolesSalaries".data, .arr
            [.obj [("role".data, jstr "Dev"), ("minSalary".data, .num 1),
               ("medianSalary".data, .num 2)],
             .obj [("role".data, jstr "QA"), ("minSalary".data, .num 1),
               ("medianSalary".data, .num 2), ("maxSalary".data, .num 3)]])]])]))
      "citySalaryData"
      = some (.arr [.obj [("city".data, jstr "X"), ("avgSalary".data, .num 1),
          ("rolesSalaries".data, .arr
            [.obj [("role".data, jstr "QA"), ("minSalary".data, .num 1),
               ("medianSalary".data, .num 2), ("maxSalary".data, .num 3)]])]]) := by
  obtain ⟨d, hok, hcsd, _⟩ := c6_amended
    [("citySalaryData".data,
      .arr [.obj [("city".data, jstr "X"), ("avgSalary".data, .num 1),
        ("rolesSalaries".data, .arr
          [.obj [("role".data, jstr "Dev"), ("minSalary".data, .num 1),
             ("medianSalary".data, .num 2)],
           .obj [("role".data, jstr "QA"), ("minSalary".data, .num 1),
             ("medianSalary".data, .num 2), ("maxSalary".data, .num 3)]])]])]
    [.obj [("city".data, jstr "X"), ("avgSalary".data, .num 1),
      ("rolesSalaries".data, .arr
        [.obj [("role".data, jstr "Dev"), ("minSalary".data, .num 1),
           ("medianSalary".data, .num 2)],
         .obj [("role".data, jstr "QA"), ("minSalary".data, .num 1),
           ("medianSalary".data, .num 2), ("maxSalary".data, .num 3)]])]]
    (by decide)
  rw [hok]
  simp only [okField]
  rw [hcsd]
  decide

/-! ## Claim C5 -/

/-- C5: for every parsed object, whatever its shape, the
validation/backfill step of `generateIndustryInsights` never throws; the
object it returns carries each of the ten declared array fields as an
array, `industryOverview` as a string, and `expectedSalaryRange` as a
truthy object. -/
theorem c5_sanitize_invariants (fs : List (List Char × Json)) :
    ∃ d, sanitizeIndustryData (.obj fs) = .ok d
    ∧ (∀ f ∈ arrayFields, ∃ xs, getField d f = some (.arr xs))
    ∧ (∃ s, getField d "industryOverview" = some (.str s))
    ∧ ∃ v, getField d "expectedSalaryRange" = some v
        ∧ v.truthy = true ∧ v.typeofObject = true := by
  have hobj1 : isObjB (overviewStep (.obj fs)) = true := by
    rw [isObjB_overviewStep]
    rfl
  refine ⟨_, sanitizeIndustryData_stages fs, ?_, ?_, ?_⟩
  · intro f hf
    obtain ⟨xs, hxs⟩ := getField_foldl_fields_arr arrayFields (overviewStep (.obj fs))
      hobj1 (by decide) f hf
    have hne : ("expectedSalaryRange" : String) ≠ f := by
      have hall : ∀ g ∈ arrayFields, ("expectedSalaryRange" : String) ≠ g := by decide
      exact hall f hf
    refine ⟨xs, ?_⟩
    rw [getField_esrStep_ne _ _ hne]
    exact hxs
  · obtain ⟨s, hs⟩ := overviewStep_shape (.obj fs)
    refine ⟨s, ?_⟩
    rw [getField_esrStep_ne _ _ (by decide),
      getField_foldl_processArrayField_ne _ _ _ (by decide), hs]
    exact getField_setField_same_of_obj _ _ _ rfl
  · refine getField_esrStep_esr _ ?_
    rw [isObjB_foldl_processArrayField]
    exact hobj1

/-- Witness for `c5_sanitize_invariants`: on the empty object the
sanitizer returns an object whose `marketDemand` is an array. -/
theorem c5_sanitize_invariants_witness :
    ∃ xs, okField (sanitizeIndustryData (.obj [])) "marketDemand"
      = some (.arr xs) := by
  obtain ⟨d, hok, harr, -, -⟩ := c5_sanitize_invariants []
  obtain ⟨xs, hxs⟩ := harr "marketDemand" (by decide)
  refine ⟨xs, ?_⟩
  rw [hok]
  simp only [okField]
  exact hxs

/-! ## The retry loop of `generateComparisonInsights` (claims C4, C2) -/

/-- Attempt `i` of the generation loop parses and validates as complete
(the loop counter increments exactly once per generation call, so the
counter value names the call). -/
def attemptComplete (gen : Nat → Option Json) (cc tc cr tr : String) (i : Nat) : Bool :=
  match gen i with
  | some p => (validateComparisonData p cc tc cr tr).2.isComplete
  | none => false

theorem runAttempts_attempts_le (gen : Nat → Option Json) (cc tc cr tr : String) :
    ∀ (rem att : Nat) (data : Option Json),
      (runAttempts gen cc tc cr tr rem att data).1 ≤ att + rem := by
  intro rem
  induction rem with
  | zero => intro att data; exact Nat.le_refl att
  | succ n ih =>
      intro att data
      simp only [runAttempts]
      cases hg : gen (att + 1) with
      | none => exact Nat.le_trans (ih (att + 1) data) (by omega)
      | some parsed =>
          show (if (validateComparisonData parsed cc tc cr tr).2.isComplete
              then (att + 1, some (validateComparisonData parsed cc tc cr tr).1, true)
              else runAttempts gen cc tc cr tr n (att + 1)
                (some (validateComparisonData parsed cc tc cr tr).1)).1 ≤ att + (n + 1)
          cases hc : (validateComparisonData parsed cc tc cr tr).2.isComplete with
          | true => simp only [if_true]; omega
          | false =>
              simp only [Bool.false_eq_true, if_false]
              exact Nat.le_trans (ih (att + 1) _) (by omega)

theorem runAttempts_first_complete (gen : Nat → Option Json) (cc tc cr tr : String) :
    ∀ (rem att : Nat) (data : Option Json) (k : Nat),
      att < k → k ≤ att + rem →
      (∀ i, att < i → i < k → attemptComplete gen cc tc cr tr i = false) →
      attemptComplete gen cc tc cr tr k = true →
      ∃ p, gen k = some p
        ∧ runAttempts gen cc tc cr tr rem att data
          = (k, some (validateComparisonData p cc tc cr tr).1, true) := by
  intro rem
  induction rem with
  | zero => intro att data k h1 h2 _ _; omega
  | succ n ih =>
      intro att data k h1 h2 hbef hk
      simp only [runAttempts]
      cases hg : gen (att + 1) with
      | none =>
          have hne : att + 1 ≠ k := by
            intro he
            rw [attemptComplete, ← he, hg] at hk
            exact Bool.noConfusion hk
          exact ih (att + 1) data k (by omega) (by omega)
            (fun i hi hik => hbef i (by omega) hik) hk
      | some parsed =>
          show ∃ p, gen k = some p
            ∧ (if (validateComparisonData parsed cc tc cr tr).2.isComplete
                then (att + 1, some (validateComparisonData parsed cc tc cr tr).1, true)
                else runAttempts gen cc tc cr tr n (att + 1)
                  (some (validateComparisonData parsed cc tc cr tr).1))
              = (k, some (validateComparisonData p cc tc cr tr).1, true)
          cases hc : (validateComparisonData parsed cc tc cr tr).2.isComplete with
          | true =>
              have hke : att + 1 = k := by
                by_contra hne
                have hlt : att + 1 < k := by omega
                have hfalse : (validateComparisonData parsed cc tc cr tr).2.isComplete
                    = false := by
                  have hb := hbef (att + 1) (by omega) hlt
                  rw [attemptComplete, hg] at hb
                  exact hb
                rw [hc] at hfalse
                exact Bool.noConfusion hfalse
              refine ⟨parsed, ?_, ?_⟩
              · rw [← hke]; exact hg
              · simp only [if_true]; rw [hke]
          | false =>
              have hne : att + 1 ≠ k := by
                intro he
                rw [attemptComplete, ← he, hg] at hk
                have hk' : (validateComparisonData parsed cc tc cr tr).2.isComplete
                    = true := hk
                rw [hc] at hk'
                exact Bool.noConfusion hk'
              simp only [Bool.false_eq_true, if_false]
              exact ih (att + 1) _ k (by omega) (by omega)
                (fun i hi hik => hbef i (by omega) hik) hk

theorem isObjB_rolesSalariesBackfill (data : Json) :
    isObjB (rolesSalariesBackfill data) = isObjB data := by
  rw [rolesSalariesBackfill]
  cases ht : data.truthy with
  | false => simp [ht]
  | true =>
      simp only [ht, Bool.not_true, Bool.false_eq_true, if_false]
      cases hcsc : getField data "countrySalaryComparison" with
      | none => rfl
      | some csc =>
          cases hct : csc.truthy with
          | false => simp [hct]
          | true => simp [hct, isObjB_setField]

theorem validateComparisonData_complete_isObj (data : Json) (cc tc cr tr : String)
    (h : (validateComparisonData data cc tc cr tr).2.isComplete = true) :
    isObjB data = true := by
  cases data with
  | obj fs => rfl
  | null => exact Bool.noConfusion h
  | bool b =>
      cases b with
      | false => exact Bool.noConfusion h
      | true =>
          rw [validateComparisonData] at h
          simp [Json.truthy,
            show ∀ k, getField (Json.bool true) k = none from fun k => rfl] at h
  | num n =>
      rw [validateComparisonData] at h
      cases ht : (Json.num n).truthy with
      | false => rw [ht] at h; exact Bool.noConfusion h
      | true =>
          rw [ht] at h
          simp [show ∀ k, getField (Json.num n) k = none from fun k => rfl] at h
  | str s =>
      rw [validateComparisonData] at h
      cases ht : (Json.str s).truthy with
      | false => rw [ht] at h; exact Bool.noConfusion h
      | true =>
          rw [ht] at h
          simp [show ∀ k, getField (Json.str s) k = none from fun k => rfl] at h
  | arr xs =>
      rw [validateComparisonData] at h
      simp [Json.truthy,
        show ∀ k, getField (Json.arr xs) k = none from fun k => rfl] at h

theorem exists_obj_of_isObjB (d : Json) (h : isObjB d = true) :
    ∃ gs, d = .obj gs := by
  cases d with
  | obj gs => exact ⟨gs, rfl⟩
  | null => exact Bool.noConfusion h
  | bool b => exact Bool.noConfusion h
  | num n => exact Bool.noConfusion h
  | str s => exact Bool.noConfusion h
  | arr xs => exact Bool.noConfusion h

/-! ## Claim C4 -/

/-- C4: the loop issues at most 3 generation calls — the call counter of
every run is at most 3 — and when attempt `k` is the first whose parsed
data validates as complete, the loop stops there: the counter equals `k`
and `generateComparisonInsights` returns that attempt's validated object
with `_meta` carrying `attempts = k` and `isComplete = true` (so a
complete first response yields `attempts = 1`). -/
theorem c4_stops_at_first_complete (gen : Nat → Option Json)
    (now cc tc cr tr : String) (k : Nat) (p : Json)
    (hk1 : 1 ≤ k) (hk3 : k ≤ 3)
    (hbefore : ∀ i, 1 ≤ i → i < k → attemptComplete gen cc tc cr tr i = false)
    (hgenk : gen k = some p)
    (hcomp : (validateComparisonData p cc tc cr tr).2.isComplete = true) :
    (∀ g : Nat → Option Json, (runAttempts g cc tc cr tr 3 0 none).1 ≤ 3)
    ∧ (runAttempts gen cc tc cr tr 3 0 none).1 = k
    ∧ generateComparisonInsights gen now cc tc cr tr
        = .ok (setField (validateComparisonData p cc tc cr tr).1 "_meta"
            (metaObj now k true)) := by
  obtain ⟨p', hp', hrun⟩ := runAttempts_first_complete gen cc tc cr tr 3 0 none k
    (by omega) (by omega) (fun i hi hik => hbefore i (by omega) hik)
    (by rw [attemptComplete, hgenk]; exact hcomp)
  have hpp : p' = p := by
    rw [hgenk] at hp'
    exact (Option.some.injEq _ _).mp hp'.symm
  rw [hpp] at hrun
  refine ⟨fun g => runAttempts_attempts_le g cc tc cr tr 3 0 none, ?_, ?_⟩
  · rw [hrun]
  · have hobj : isObjB ((validateComparisonData p cc tc cr tr).1) = true := by
      rw [validateComparisonData_fst, isObjB_rolesSalariesBackfill]
      exact validateComparisonData_complete_isObj p cc tc cr tr hcomp
    obtain ⟨gs, hgs⟩ := exists_obj_of_isObjB _ hobj
    rw [generateComparisonInsights, hrun, hgs]
    rfl

/-- A comparison payload that validates as complete: both countries named
as expected with non-empty `topCities` of objects carrying `rolesSalaries`
arrays, both roles titled as expected with non-empty `requiredSkills`,
array `skillGaps` and `transferableSkills`, and a well-typed
`salaryExpectationAnalysis`. -/
def completeComparison : Json :=
  .obj [("countrySalaryComparison".data, .obj [
      ("currentCountry".data, .obj [("name".data, jstr "A"),
        ("topCities".data, .arr [.obj [("rolesSalaries".data, .arr [])]])]),
      ("targetCountry".data, .obj [("name".data, jstr "B"),
        ("topCities".data, .arr [.obj [("rolesSalaries".data, .arr [])]])])]),
    ("roleComparison".data, .obj [
      ("currentRole".data, .obj [("title".data, jstr "X"),
        ("requiredSkills".data, .arr [jstr "s"])]),
      ("targetRole".data, .obj [("title".data, jstr "Y"),
        ("requiredSkills".data, .arr [jstr "s"])]),
      ("skillGaps".data, .arr []),
      ("transferableSkills".data, .arr [])]),
    ("salaryExpectationAnalysis".data, .obj [
      ("isRealistic".data, .bool true), ("percentile".data, .num 50),
      ("recommendation".data, jstr "ok")])]

/-- Witness for `c4_stops_at_first_complete`: a generator whose first
response is `completeComparison` stops after one call with
`attempts = 1`. -/
theorem c4_stops_at_first_complete_witness :
    (runAttempts (fun _ => some completeComparison) "A" "B" "X" "Y" 3 0 none).1 = 1
    ∧ generateComparisonInsights (fun _ => some completeComparison) "T" "A" "B" "X" "Y"
        = .ok (setField (validateComparisonData completeComparison "A" "B" "X" "Y").1
            "_meta" (metaObj "T" 1 true)) := by
  obtain ⟨-, h2, h3⟩ := c4_stops_at_first_complete (fun _ => some completeComparison)
    "T" "A" "B" "X" "Y" 1 completeComparison (by decide) (by decide)
    (fun i hi hik => absurd (Nat.lt_of_le_of_lt hi hik) (Nat.lt_irrefl 1))
    rfl (by decide)
  exact ⟨h2, h3⟩

/-! ## Claim C2 -/

/-- C2, refuted on both halves of the clause: (1) when every attempt's
generation or parse step failed so that no data object was ever produced,
the function does not return a backfilled object — reading
`data.roleComparison` on `null` throws a `TypeError`; (2) when data was
produced but stayed incomplete, the still-missing required section
`countrySalaryComparison` is *not* backfilled (only `roleComparison` and
`salaryExpectationAnalysis` are): the returned object simply lacks it. -/
theorem c2_counterexample :
    generateComparisonInsights (fun _ => none) "T" "A" "B" "X" "Y"
      = .error "TypeError: Cannot read properties of null (reading 'roleComparison')"
    ∧ okField (generateComparisonInsights (fun _ => some (Json.obj []))
        "T" "A" "B" "X" "Y") "countrySalaryComparison" = none := by
  constructor
  · decide
  · decide

/-- The incomplete-exit backfill of `generateComparisonInsights`
(`aiDashboard.js` lines 213–233): default `roleComparison` and
`salaryExpectationAnalysis` when falsy; nothing else. -/
def incompleteBackfill (cr tr : String) (fs : List (List Char × Json)) : Json :=
  let d : Json := .obj fs
  let d1 := if truthyO (getField d "roleComparison") then d
    else setField d "roleComparison" (defaultRoleComparison cr tr)
  if truthyO (getField d1 "salaryExpectationAnalysis") then d1
  else setField d1 "salaryExpectationAnalysis" defaultSalaryAnalysis

theorem incompleteBackfill_props (cr tr : String) (fs : List (List Char × Json)) :
    isObjB (incompleteBackfill cr tr fs) = true
    ∧ getField (incompleteBackfill cr tr fs) "countrySalaryComparison"
        = getField (.obj fs) "countrySalaryComparison"
    ∧ truthyO (getField (incompleteBackfill cr tr fs) "roleComparison") = true
    ∧ (truthyO (getField (.obj fs) "roleComparison") = false →
        getField (incompleteBackfill cr tr fs) "roleComparison"
          = some (defaultRoleComparison cr tr))
    ∧ truthyO (getField (incompleteBackfill cr tr fs) "salaryExpectationAnalysis") = true
    ∧ (truthyO (getField (.obj fs) "salaryExpectationAnalysis") = false →
        getField (incompleteBackfill cr tr fs) "salaryExpectationAnalysis"
          = some defaultSalaryAnalysis) := by
  simp only [incompleteBackfill]
  cases h1 : truthyO (getField (Json.obj fs) "roleComparison") with
  | true =>
      simp only [if_true]
      cases h2 : truthyO (getField (Json.obj fs) "salaryExpectationAnalysis") with
      | true =>
          simp
          exact ⟨rfl, h1, h2⟩
      | false =>
          simp only [Bool.false_eq_true, if_false]
          refine ⟨?_, ?_, ?_, fun hf => Bool.noConfusion hf, ?_, fun hf => ?_⟩
          · rw [isObjB_setField]; rfl
          · rw [getField_setField_ne_any _ _ _ _ (by decide)]
          · rw [getField_setField_ne_any _ _ _ _ (by decide)]; exact h1
          · rw [getField_setField_same_of_obj (Json.obj fs) _ _ rfl]; rfl
          · rw [getField_setField_same_of_obj (Json.obj fs) _ _ rfl]
  | false =>
      simp only [Bool.false_eq_true, if_false]
      rw [getField_setField_ne_any (Json.obj fs) "roleComparison"
        "salaryExpectationAnalysis" (defaultRoleComparison cr tr) (by decide)]
      cases h2 : truthyO (getField (Json.obj fs) "salaryExpectationAnalysis") with
      | true =>
          simp only [if_true]
          refine ⟨?_, ?_, ?_, fun hf => ?_, ?_, fun hf => Bool.noConfusion hf⟩
          · rw [isObjB_setField]; rfl
          · rw [getField_setField_ne_any _ _ _ _ (by decide)]
          · rw [getField_setField_same_of_obj (Json.obj fs) _ _ rfl]; rfl
          · rw [getField_setField_same_of_obj (Json.obj fs) _ _ rfl]
          · rw [getField_setField_ne_any _ _ _ _ (by decide)]; exact h2
      | false =>
          simp only [Bool.false_eq_true, if_false]
          refine ⟨?_, ?_, ?_, fun hf => ?_, ?_, fun hf => ?_⟩
          · rw [isObjB_setField, isObjB_setField]; rfl
          · rw [getField_setField_ne_any _ _ _ _ (by decide),
              getField_setField_ne_any _ _ _ _ (by decide)]
          · rw [getField_setField_ne_any _ _ _ _ (by decide),
              getField_setField_same_of_obj (Json.obj fs) _ _ rfl]; rfl
          · rw [getField_setField_ne_any _ _ _ _ (by decide),
              getField_setField_same_of_obj (Json.obj fs) _ _ rfl]
          · rw [getField_setField_same_of_obj
              (setField (Json.obj fs) "roleComparison" (defaultRoleComparison cr tr))
              _ _ (by rw [isObjB_setField]; rfl)]; rfl
          · rw [getField_setField_same_of_obj
              (setField (Json.obj fs) "roleComparison" (defaultRoleComparison cr tr))
              _ _ (by rw [isObjB_setField]; rfl)]

theorem runAttempts_incomplete_attempts (gen : Nat → Option Json)
    (cc tc cr tr : String) :
    ∀ (rem att : Nat) (data : Option Json),
      (runAttempts gen cc tc cr tr rem att data).2.2 = false →
      (runAttempts gen cc tc cr tr rem att data).1 = att + rem := by
  intro rem
  induction rem with
  | zero => intro att data _; rfl
  | succ n ih =>
      intro att data hinc
      simp only [runAttempts] at hinc ⊢
      cases hg : gen (att + 1) with
      | none =>
          rw [hg] at hinc
          have hinc2 : (runAttempts gen cc tc cr tr n (att + 1) data).2.2 = false := hinc
          show (runAttempts gen cc tc cr tr n (att + 1) data).1 = att + (n + 1)
          rw [ih (att + 1) data hinc2]
          omega
      | some parsed =>
          rw [hg] at hinc
          have hinc2 : (if (validateComparisonData parsed cc tc cr tr).2.isComplete
              then (att + 1, some (validateComparisonData parsed cc tc cr tr).1, true)
              else runAttempts gen cc tc cr tr n (att + 1)
                (some (validateComparisonData parsed cc tc cr tr).1)).2.2
              = false := hinc
          show (if (validateComparisonData parsed cc tc cr tr).2.isComplete
              then (att + 1, some (validateComparisonData parsed cc tc cr tr).1, true)
              else runAttempts gen cc tc cr tr n (att + 1)
                (some (validateComparisonData parsed cc tc cr tr).1)).1 = att + (n + 1)
          cases hc : (validateComparisonData parsed cc tc cr tr).2.isComplete with
          | true =>
              rw [hc] at hinc2
              exact Bool.noConfusion hinc2
          | false =>
              rw [hc] at hinc2
              have hinc3 : (runAttempts gen cc tc cr tr n (att + 1)
                  (some (validateComparisonData parsed cc tc cr tr).1)).2.2
                  = false := hinc2
              simp only [Bool.false_eq_true, if_false]
              rw [ih _ _ hinc3]
              omega

/-- C2, amended: when the loop ends incomplete, the attempt counter is
exhausted at 3; if no attempt ever produced data the function throws the
`TypeError` from reading `null.roleComparison` (it does not return); if
the best-available data is an object, the function returns it with falsy
`roleComparison` and `salaryExpectationAnalysis` backfilled by their
defaults and `_meta = {attempts: 3, isComplete: false}` attached — but
`countrySalaryComparison` is left exactly as it was, missing sections
included. -/
theorem c2_amended (gen : Nat → Option Json) (now cc tc cr tr : String)
    (hinc : (runAttempts gen cc tc cr tr 3 0 none).2.2 = false) :
    (runAttempts gen cc tc cr tr 3 0 none).1 = 3
    ∧ ((runAttempts gen cc tc cr tr 3 0 none).2.1 = none →
        generateComparisonInsights gen now cc tc cr tr
          = .error "TypeError: Cannot read properties of null (reading 'roleComparison')")
    ∧ ∀ fs, (runAttempts gen cc tc cr tr 3 0 none).2.1 = some (.obj fs) →
        ∃ out, generateComparisonInsights gen now cc tc cr tr = .ok out
        ∧ getField out "countrySalaryComparison"
            = getField (.obj fs) "countrySalaryComparison"
        ∧ truthyO (getField out "roleComparison") = true
        ∧ (truthyO (getField (.obj fs) "roleComparison") = false →
            getField out "roleComparison" = some (defaultRoleComparison cr tr))
        ∧ truthyO (getField out "salaryExpectationAnalysis") = true
        ∧ (truthyO (getField (.obj fs) "salaryExpectationAnalysis") = false →
            getField out "salaryExpectationAnalysis" = some defaultSalaryAnalysis)
        ∧ getField out "_meta" = some (metaObj now 3 false) := by
  have hatt : (runAttempts gen cc tc cr tr 3 0 none).1 = 3 := by
    have := runAttempts_incomplete_attempts gen cc tc cr tr 3 0 none hinc
    omega
  refine ⟨hatt, ?_, ?_⟩
  · intro hnone
    simp only [generateComparisonInsights, hinc, hnone, Bool.false_eq_true, if_false]
  · intro fs hsome
    obtain ⟨hobj, hcsc, hrcT, hrcC, hseaT, hseaC⟩ := incompleteBackfill_props cr tr fs
    refine ⟨setField (incompleteBackfill cr tr fs) "_meta" (metaObj now 3 false),
      ?_, ?_, ?_, fun hf => ?_, ?_, fun hf => ?_, ?_⟩
    · simp only [generateComparisonInsights, hinc, hsome, hatt,
        Bool.false_eq_true, if_false]
      rfl
    · rw [getField_setField_ne_any _ _ _ _ (by decide)]
      exact hcsc
    · rw [getField_setField_ne_any _ _ _ _ (by decide)]
      exact hrcT
    · rw [getField_setField_ne_any _ _ _ _ (by decide)]
      exact hrcC hf
    · rw [getField_setField_ne_any _ _ _ _ (by decide)]
      exact hseaT
    · rw [getField_setField_ne_any _ _ _ _ (by decide)]
      exact hseaC hf
    · exact getField_setField_same_of_obj _ _ _ hobj

/-- Witness for `c2_amended`: a generator returning the empty object every
time exhausts 3 attempts and returns an object with `roleComparison`
backfilled to a truthy value. -/
theorem c2_amended_witness :
    (runAttempts (fun _ => some (Json.obj [])) "A" "B" "X" "Y" 3 0 none).1 = 3
    ∧ ∃ out, generateComparisonInsights (fun _ => some (Json.obj []))
        "T" "A" "B" "X" "Y" = .ok out
      ∧ truthyO (getField out "roleComparison") = true := by
  obtain ⟨h1, -, h3⟩ := c2_amended (fun _ => some (Json.obj []))
    "T" "A" "B" "X" "Y" (by decide)
  obtain ⟨out, heq, -, hrc, -, -, -, -⟩ := h3 [] (by decide)
  exact ⟨h1, out, heq, hrc⟩

end Career
